import Mathlib

/-!
Verification of the core of the Deadlock-Go dynamic deadlock detector.

The Go sources (mutex.go, rwMutex.go, mutexInt.go, dependency.go, routine.go,
stack.go, detector.go) are shallowly embedded below: pure data is translated
to Lean structures, mutation to explicit state passing, Go panics to `Option`
results (`none` = fatal abort), and the process-terminating double-lock /
deadlock reports to explicit result values.  Lock identity (the handle's
memory position) is a natural number; Go `int` routine indices are `Int`.
-/

namespace DeadlockGo

/-- A wrapped lock handle as seen through the `mutexInt` interface
(mutex.go / rwMutex.go).  `memoryPosition` is the stable identity used as a
hash key and for `mutexHaveEqualLock`; `isMutex` is the first component of
`getLock` (true for `Mutex`, false for `RWMutex`). -/
structure MutexInt where
  memoryPosition : Nat
  isMutex : Bool
  deriving DecidableEq, Repr

instance : Inhabited MutexInt := ⟨⟨0, true⟩⟩

/-- The global reader-flag state: for each lock handle its `isRLock` map
(routine index → flag), rwMutex.go lines 56 and 145-163.  A missing key reads
as `false`, which the total function already encodes. -/
def Env : Type := MutexInt → Int → Bool

/-- Go `getRLock` through the `mutexInt` interface: a plain `Mutex` returns
`false` unconditionally (mutex.go line 138); an `RWMutex` reads its `isRLock`
map (rwMutex.go line 145). -/
def getRLock (env : Env) (m : MutexInt) (i : Int) : Bool :=
  if m.isMutex then false else env m i

/-- Go `setRLock`: a no-op for a plain `Mutex` (mutex.go line 144); an `RWMutex`
writes its `isRLock` map (rwMutex.go line 159). -/
def setRLock (env : Env) (m : MutexInt) (i : Int) (v : Bool) : Env :=
  if m.isMutex then env
  else fun l j => if l = m ∧ j = i then v else env l j

/-- Go `mutexHaveEqualLock` (detector.go line 509): locks are equal when they
have the same kind and the same underlying primitive; distinct handles own
distinct primitives, so primitive identity coincides with handle identity,
modelled by `memoryPosition`. -/
def mutexHaveEqualLock (m1 m2 : MutexInt) : Bool :=
  if m1.isMutex != m2.isMutex then false
  else m1.memoryPosition == m2.memoryPosition

/-- A dependency (dependency.go lines 39-43).  `holdingSet` is the Go slice
including its `nil` entries (`none` models a nil `mutexInt`). -/
structure Dependency where
  mu : MutexInt
  holdingSet : List (Option MutexInt)
  holdingCount : Nat
  deriving DecidableEq, Repr

instance : Inhabited Dependency := ⟨⟨default, [], 0⟩⟩

/- Calling an interface method on a nil `mutexInt` would fault in Go; in all
states the detector reads, entries below `holdingCount` are non-nil, so the
following totalisations are never exercised on `none` there. -/

/-- Go `mutexHaveEqualLock` lifted to a possibly-nil holding-set entry. -/
def muEqualO (a : Option MutexInt) (b : MutexInt) : Bool :=
  match a with
  | some x => mutexHaveEqualLock x b
  | none => false

/-- Go `mutexHaveEqualLock` lifted to two possibly-nil holding-set entries. -/
def muEqualOO (a b : Option MutexInt) : Bool :=
  match a, b with
  | some x, some y => mutexHaveEqualLock x y
  | _, _ => false

/-- Go `getRLock` lifted to a possibly-nil holding-set entry. -/
def getRLockO (env : Env) (a : Option MutexInt) (i : Int) : Bool :=
  match a with
  | some x => getRLock env x i
  | none => false

/-- Go `getMemoryPosition` lifted to a possibly-nil holding-set entry. -/
def memPosO : Option MutexInt → Nat
  | some x => x.memoryPosition
  | none => 0

/-- The option bag (options.go lines 94-134); only the fields the embedded
code reads are kept.  Durations and the call-stack options only feed the
elided diagnostics. -/
structure Opts where
  activated : Bool
  periodicDetection : Bool
  comprehensiveDetection : Bool
  collectSingleLevelLockStack : Bool
  checkDoubleLocking : Bool
  maxDependencies : Nat
  maxNumberOfDependentLocks : Nat
  maxRoutines : Nat
  deriving DecidableEq, Repr

/-- The defaults of options.go lines 122-134. -/
def defaultOpts : Opts :=
  { activated := true
    periodicDetection := true
    comprehensiveDetection := true
    collectSingleLevelLockStack := true
    checkDoubleLocking := true
    maxDependencies := 4096
    maxNumberOfDependentLocks := 128
    maxRoutines := 1024 }

/-! ### dependency.go -/

/-- Go `copy(dst, src)`: overwrite the first `min dst.length src.length`
entries of `dst` with those of `src`, keep the rest of `dst`. -/
def goCopy (dst src : List (Option MutexInt)) : List (Option MutexInt) :=
  src.take dst.length ++ dst.drop src.length

/-- Go `newDependency` (dependency.go lines 52-67).  The constructor first
allocates `opts.maxNumberOfDependentLocks` nil slots with `make` and then
*appends* the first `numberOfLocks` entries of `currentLocks`, exactly as the
source does. -/
def newDependency (o : Opts) (lock : MutexInt) (currentLocks : List (Option MutexInt))
    (numberOfLocks : Nat) : Dependency :=
  { mu := lock
    holdingCount := numberOfLocks
    holdingSet := List.replicate o.maxNumberOfDependentLocks none
      ++ (List.range numberOfLocks).map (fun i => currentLocks.getD i none) }

/-- Go `dependency.update` (dependency.go lines 76-85): set the lock, `copy` the
routine's holding set into the front of the stored one, set the count. -/
def Dependency.update (d : Dependency) (lock : MutexInt) (hs : List (Option MutexInt))
    (numberOfLocks : Nat) : Dependency :=
  { mu := lock
    holdingSet := goCopy d.holdingSet hs
    holdingCount := numberOfLocks }

/-! ### routine.go -/

/-- Per-routine state (routine.go lines 55-72).  `dependencies` is the Go
array restricted to its `depCount` live entries (entries are appended at
`dependencies[depCount]`); `dependencyMap` is the hash index as an
association list from key to bucket; buckets store the dependencies the Go
code stores by pointer. -/
structure Routine where
  index : Int
  holdingCount : Nat
  holdingSet : List (Option MutexInt)
  dependencyMap : List (Nat × List Dependency)
  dependencies : List Dependency
  depCount : Nat
  curDep : Option Dependency
  deriving DecidableEq, Repr

instance : Inhabited Routine := ⟨⟨0, 0, [], [], [], 0, none⟩⟩

/-- Map lookup `depMap[key]` returning the bucket and the `ok` flag. -/
def mapLookup (mp : List (Nat × List Dependency)) (k : Nat) : Option (List Dependency) :=
  match mp.find? (fun p => p.1 == k) with
  | some p => some p.2
  | none => none

/-- Map write `r.dependencyMap[key] = d`: the standard shadowing model of a
mutable map as an association list read through first-match `mapLookup`. -/
def mapInsert (mp : List (Nat × List Dependency)) (k : Nat) (v : List Dependency) :
    List (Nat × List Dependency) :=
  (k, v) :: mp

/-- The scanning loop of `dependencyAlreadyExists` (routine.go line 267):
starting at position `i`, advance while the two holding sets agree and the
position is below `hc`; the call returns `true` exactly when the loop ran to
`i = hc`.  (The Go loop's final iteration also reads position `hc` itself
before the bound check; that read does not influence the result.) -/
def holdingSetScan (dhs rhs : List (Option MutexInt)) (hc i : Nat) : Bool :=
  if i < hc then
    if dhs.getD i none == rhs.getD i none then holdingSetScan dhs rhs hc (i + 1)
    else false
  else true
termination_by hc - i

/-- Go `dependencyAlreadyExists` (routine.go lines 258-277): some dependency in
the bucket has the same acquired lock, the same holding count and a
holding set that agrees with the routine's up to that count. -/
def dependencyAlreadyExists (r : Routine) (m : MutexInt) (depList : List Dependency) : Bool :=
  depList.any fun d =>
    d.mu == m && d.holdingCount == r.holdingCount &&
      holdingSetScan d.holdingSet r.holdingSet r.holdingCount 0

/-- The hash key of the dependency created by locking `m` (routine.go line
141): the memory position of `m` XOR that of the top of the holding set. -/
def depKey (r : Routine) (m : MutexInt) : Nat :=
  Nat.xor m.memoryPosition (memPosO (r.holdingSet.getD (r.holdingCount - 1) none))

/-- The lookup-and-scan of routine.go lines 146-155: the key exists in the
map and `dependencyAlreadyExists` finds a match in its bucket. -/
def bucketFound (r : Routine) (m : MutexInt) : Bool :=
  match mapLookup r.dependencyMap (depKey r m) with
  | some l => dependencyAlreadyExists r m l
  | none => false

/-- The dependency stored by routine.go lines 162-164: `newDependency`
produces the appended-snapshot slice and `dep.update` immediately copies the
live holding set over its front (`r.dependencies[r.depCount]` keeps a
pointer, so it sees the update). -/
def theNewDep (o : Opts) (r : Routine) (m : MutexInt) : Dependency :=
  (newDependency o m r.holdingSet r.holdingCount).update m r.holdingSet r.holdingCount

/-- The lock-tree extension of routine.go lines 156-178: append the new
dependency to `dependencies`, append it to the key's bucket (or open the
bucket), set `curDep`. -/
def addDep (o : Opts) (r : Routine) (m : MutexInt) : Routine :=
  { r with
    dependencies := r.dependencies ++ [theNewDep o r m]
    depCount := r.depCount + 1
    dependencyMap := mapInsert r.dependencyMap (depKey r m)
      (match mapLookup r.dependencyMap (depKey r m) with
        | some l => l ++ [theNewDep o r m]
        | none => [theNewDep o r m])
    curDep := some (theNewDep o r m) }

/-- Go `updateLock` (routine.go lines 129-250).  Panics (dependency-count and
holding-depth overflow) become `none`.  The caller-information recording
(runtime.Caller, call stacks, `collectedSingleLevelLocks`) only feeds the
diagnostic `context` of the lock and is read by nothing the detector
computes, so it is elided. -/
def updateLock (o : Opts) (env : Env) (r : Routine) (m : MutexInt) (rLock : Bool) :
    Option (Env × Routine) :=
  let env' := setRLock env m r.index rLock
  let afterTree : Option Routine :=
    if 0 < r.holdingCount then
      if bucketFound r m then some r
      else if o.maxDependencies ≤ r.depCount then none
      else some (addDep o r m)
    else some r
  match afterTree with
  | none => none
  | some r2 =>
    if o.maxNumberOfDependentLocks ≤ r.holdingCount then none
    else some (env', { r2 with
      holdingSet := r2.holdingSet.set r.holdingCount (some m)
      holdingCount := r.holdingCount + 1 })

/-- Go `updateTryLock` (routine.go lines 285-298): only the reader flag and the
holding set are touched; the panic on holding-depth overflow becomes
`none`. -/
def updateTryLock (o : Opts) (env : Env) (r : Routine) (m : MutexInt) (rLock : Bool) :
    Option (Env × Routine) :=
  if o.maxNumberOfDependentLocks ≤ r.holdingCount then none
  else
    let env' := setRLock env m r.index rLock
    some (env', { r with
      holdingSet := r.holdingSet.set r.holdingCount (some m)
      holdingCount := r.holdingCount + 1 })

/-- The top-down scan of `updateUnlock` (routine.go line 307): the greatest
position below `k` holding `m`, found by walking downwards. -/
def findTopmost (hs : List (Option MutexInt)) (m : MutexInt) : Nat → Option Nat
  | 0 => none
  | k + 1 => if hs.getD k none == some m then some k else findTopmost hs m k

/-- Go `updateUnlock` (routine.go lines 305-315): splice out the topmost
occurrence of `m` (the first `append` drops position `i`, the second keeps
the slice at full length by appending nil), decrement the count; if `m` is
not held, do nothing. -/
def updateUnlock (r : Routine) (m : MutexInt) : Routine :=
  match findTopmost r.holdingSet m r.holdingCount with
  | none => r
  | some i =>
    { r with
      holdingSet := r.holdingSet.take i ++ r.holdingSet.drop (i + 1) ++ [none]
      holdingCount := r.holdingCount - 1 }

/-- Go `checkDoubleLocking` (routine.go lines 345-360), with `heldByRoutine`
the lock's `isLockedRoutineIndex` map.  Returns `true` exactly when the Go
code reports double locking and exits the process with status 2. -/
def checkDoubleLocking (env : Env) (heldByRoutine : Int → Int) (m : MutexInt)
    (routineIndex : Int) (rLock : Bool) : Bool :=
  if heldByRoutine routineIndex == 0 then false
  else if rLock && getRLock env m routineIndex then false
  else true

/-- One routine-state operation, as fed by the interception layer: a
successful `Lock`, a successful `TryLock`, or an `Unlock`. -/
inductive LockOp where
  | lockOp (m : MutexInt) (rLock : Bool)
  | tryLockOp (m : MutexInt) (rLock : Bool)
  | unlockOp (m : MutexInt)
  deriving DecidableEq, Repr

/-- Whether an operation is a plain blocking `Lock` (the only kind that can
create a dependency). -/
def LockOp.isLock : LockOp → Bool
  | .lockOp _ _ => true
  | _ => false

/-- Apply one operation to a routine state (dispatching to `updateLock`,
`updateTryLock` or `updateUnlock`). -/
def runOp (o : Opts) (env : Env) (r : Routine) : LockOp → Option (Env × Routine)
  | .lockOp m rl => updateLock o env r m rl
  | .tryLockOp m rl => updateTryLock o env r m rl
  | .unlockOp m => some (env, updateUnlock r m)

/-- Run a sequence of operations on a routine state. -/
def runOps (o : Opts) (env : Env) (r : Routine) : List LockOp → Option (Env × Routine)
  | [] => some (env, r)
  | op :: ops =>
    match runOp o env r op with
    | none => none
    | some (env', r') => runOps o env' r' ops

/-! ### stack.go and detector.go -/

/-- A stack element (stack.go lines 37-46): the dependency and the index
recorded at push time (the routine index, except where the source pushes
something else).  The sentinel bottom element that `newDepStack` creates,
whose `index` is -1 and whose dependency is nil, is kept implicit: a stack
is the list of its real elements, bottom first, and the sentinel's constant
index -1 is written literally where the source reads `dStack.stack.index`. -/
structure StackElem where
  depEntry : Dependency
  index : Int
  deriving DecidableEq, Repr

/-- Go `isChain` (detector.go lines 433-473), for the current path `stack`
(bottom first) and candidate `dep` from routine `routineIndex`.  The source
dereferences `stack.top.depEntry`, so it is only ever called on a non-empty
stack; the empty case is totalised to `false`. -/
def isChain (env : Env) (stack : List StackElem) (dep : Dependency)
    (routineIndex : Int) : Bool :=
  match stack.getLast? with
  | none => false
  | some top =>
    let found := (List.range dep.holdingCount).any fun i =>
      let mutexInHs := dep.holdingSet.getD i none
      muEqualO mutexInHs top.depEntry.mu &&
        !(getRLockO env mutexInHs routineIndex &&
          getRLock env top.depEntry.mu top.index)
    if !found then false
    else stack.all fun c =>
      !(c.depEntry == dep) &&
        (List.range dep.holdingCount).all fun i =>
          (List.range c.depEntry.holdingCount).all fun j =>
            let lockInDepHs := dep.holdingSet.getD i none
            let lockInCHoldingSet := c.depEntry.holdingSet.getD j none
            !(muEqualOO lockInDepHs lockInCHoldingSet) ||
              (getRLockO env lockInCHoldingSet c.index &&
               getRLockO env lockInDepHs routineIndex)

/-- Go `isCycleChain` (detector.go lines 492-507): `dep.mu` must occur in the
holding set of the bottom element of the stack, with a reader-reader escape
shaped like the one of `isChain` -- except that the source reads the reader
flag of the occurrence at `dStack.stack.index`, the index of the sentinel
created by `newDepStack`, hence at the literal -1, not at the bottom
element's routine index. -/
def isCycleChain (env : Env) (stack : List StackElem) (dep : Dependency)
    (routineIndex : Int) : Bool :=
  match stack.head? with
  | none => false
  | some bottom =>
    (List.range bottom.depEntry.holdingCount).any fun i =>
      let mutexInHs := bottom.depEntry.holdingSet.getD i none
      muEqualO mutexInHs dep.mu &&
        !(getRLockO env mutexInHs (-1) && getRLock env dep.mu routineIndex)

/-- The global registry the detector reads: the registered routines
(`routines` restricted to meaningful entries) and `numberRoutines`. -/
structure Cfg where
  numberRoutines : Nat
  routines : List Routine
  deriving DecidableEq, Repr

/-- Go `dfs` (detector.go lines 194-233), instrumented: instead of reporting, it
returns every explored path, i.e. for every push of a candidate onto the
path the extended stack together with the `isTraversed` array as it stands
right after that push.  The transient push/report/pop of a completed cycle
(lines 214-216) emits a report and leaves the explored path unchanged, so it
adds no snapshot.  `fuel` bounds the recursion depth; the Go recursion depth
is at most `numberRoutines`, so any `fuel` of that size or more computes the
source's behaviour, and the path invariants below hold for every `fuel`. -/
def dfs (cfg : Cfg) (env : Env) (fuel : Nat) (stack : List StackElem)
    (visiting : Nat) (isTraversed : List Bool) :
    List (List StackElem × List Bool) :=
  match fuel with
  | 0 => []
  | fuel + 1 =>
    (List.range' (visiting + 1) (cfg.numberRoutines - (visiting + 1))).flatMap fun i =>
      if isTraversed.getD i false then []
      else
        let routine := cfg.routines.getD i default
        (List.range routine.depCount).flatMap fun j =>
          let dep := routine.dependencies.getD j default
          if isChain env stack dep (i : Int) then
            if isCycleChain env stack dep (i : Int) then []
            else
              let stack' := stack ++ [⟨dep, (i : Int)⟩]
              let isT' := isTraversed.set i true
              (stack', isT') :: dfs cfg env fuel stack' visiting isT'
          else []

/-- One iteration of the inner seed loop of `detect` (detector.go lines
166-179): mark the seeding routine as traversed, push its dependency `j` as
the sole element of the path, explore, pop. -/
def detectSeed (cfg : Cfg) (env : Env) (fuel : Nat) (i : Nat)
    (acc : List (List StackElem × List Bool) × List Bool) (j : Nat) :
    List (List StackElem × List Bool) × List Bool :=
  let dep := (cfg.routines.getD i default).dependencies.getD j default
  let isT' := acc.2.set i true
  let stack0 := [(⟨dep, (i : Int)⟩ : StackElem)]
  (acc.1 ++ [(stack0, isT')] ++ dfs cfg env fuel stack0 i isT', isT')

/-- The outer loop body of `detect`: seed every dependency of routine `i`. -/
def detectStep (cfg : Cfg) (env : Env) (fuel : Nat)
    (acc : List (List StackElem × List Bool) × List Bool) (i : Nat) :
    List (List StackElem × List Bool) × List Bool :=
  (List.range (cfg.routines.getD i default).depCount).foldl
    (detectSeed cfg env fuel i) acc

/-- Go `detect` (detector.go lines 142-181), instrumented like `dfs`: all
explored paths, including each seed path of a single dependency.
`isTraversed[i]` is set when routine `i` is seeded and never reset, exactly
as in the source. -/
def detect (cfg : Cfg) (env : Env) (fuel : Nat) :
    List (List StackElem × List Bool) :=
  ((List.range cfg.numberRoutines).foldl (detectStep cfg env fuel)
    ([], List.replicate cfg.numberRoutines false)).1

/-- The staleness re-check inside `dfsPeriodical` (detector.go lines
377-391), run over all elements of the stack (which at that point includes
the pushed closing candidate). -/
def sthNewCheck (cfg : Cfg) (lastHolding : List (Option MutexInt))
    (stack : List StackElem) : Bool :=
  stack.any fun cl =>
    let routineInChain := cfg.routines.getD cl.index.toNat default
    let lh := lastHolding.getD cl.index.toNat none
    if 0 < routineInChain.holdingCount then
      !(lh == routineInChain.holdingSet.getD (routineInChain.holdingCount - 1) none)
    else !(lh == none)

/-- Go `dfsPeriodical` (detector.go lines 347-414), instrumented like `dfs`:
the explored-path snapshots plus a flag recording whether a stable cycle
terminated the process (`os.Exit(2)`, line 399), which aborts all remaining
iterations.  The recursion marks `isTraversed[numberRoutines]` -- not the
candidate's routine -- and pushes the candidate with index `numberRoutines`
(lines 405-406), exactly as the source does; the mark is reset after the
recursive call returns, which value passing models by continuing with the
caller's array. -/
def dfsPeriodical (cfg : Cfg) (env : Env) (fuel : Nat) (stack : List StackElem)
    (visiting : Nat) (isTraversed : List Bool)
    (lastHolding : List (Option MutexInt)) :
    List (List StackElem × List Bool) × Bool :=
  match fuel with
  | 0 => ([], false)
  | fuel + 1 =>
    (List.range' (visiting + 1) (cfg.numberRoutines - (visiting + 1))).foldl
      (fun acc i =>
        if acc.2 then acc
        else
          let r := cfg.routines.getD i default
          match r.curDep with
          | none => acc
          | some dep =>
            if isTraversed.getD i false then acc
            else if !(isChain env stack dep (i : Int)) then acc
            else if isCycleChain env stack dep (i : Int) then
              if sthNewCheck cfg lastHolding (stack ++ [⟨dep, (i : Int)⟩]) then acc
              else (acc.1, true)
            else
              let stack' := stack ++ [⟨dep, (cfg.numberRoutines : Int)⟩]
              let isT' := isTraversed.set cfg.numberRoutines true
              let rec2 := dfsPeriodical cfg env fuel stack' visiting isT' lastHolding
              (acc.1 ++ [(stack', isT')] ++ rec2.1, rec2.2))
      ([], false)

/-- Go `detectionPeriodical` (detector.go lines 302-333), instrumented:
explored-path snapshots and the termination flag.  Seeding routine `index`
sets `isTraversed[index]` (never reset) and, after the search returns,
clears that routine's `curDep`. -/
def detectionPeriodical (cfg : Cfg) (env : Env) (fuel : Nat) (maxRoutines : Nat)
    (lastHolding : List (Option MutexInt)) :
    List (List StackElem × List Bool) × Bool :=
  let res := (List.range cfg.numberRoutines).foldl
    (fun acc index =>
      match acc with
      | (snaps, true, isT, rs) => (snaps, true, isT, rs)
      | (snaps, false, isT, rs) =>
        let r := rs.getD index default
        match r.curDep with
        | none => (snaps, false, isT, rs)
        | some dep =>
          let isT' := isT.set index true
          let stack0 := [(⟨dep, (index : Int)⟩ : StackElem)]
          let rec1 := dfsPeriodical { cfg with routines := rs } env fuel stack0
            index isT' lastHolding
          let rs' := rs.set index { r with curDep := none }
          (snaps ++ [(stack0, isT')] ++ rec1.1, rec1.2, isT', rs'))
    (([] : List (List StackElem × List Bool)), false,
      List.replicate maxRoutines false, cfg.routines)
  (res.1, res.2.1)

/-- The scan loop of `periodicalDetection` (detector.go lines 269-283):
walking the routine array from position `index`, it accumulates
`nrThreadsHoldingLocks`, `sthNew` and the updated `lastHolding`.  Go's
`holds := r.holdingCount - 1` is negative exactly when the holding set is
empty, which the `0 < holdingCount` split captures. -/
def periodicalScan (routines : List Routine) (lastHolding : List (Option MutexInt))
    (index : Nat) : Nat × Bool × List (Option MutexInt) :=
  match routines with
  | [] => (0, false, lastHolding)
  | r :: rest =>
    if 0 < r.holdingCount then
      if !(lastHolding.getD index none == r.holdingSet.getD (r.holdingCount - 1) none) then
        let lastHolding' := lastHolding.set index
          (r.holdingSet.getD (r.holdingCount - 1) none)
        let res := periodicalScan rest lastHolding' (index + 1)
        (if 1 < r.holdingCount then res.1 + 1 else res.1, true, res.2.2)
      else periodicalScan rest lastHolding (index + 1)
    else
      if !(lastHolding.getD index none == none) then
        let res := periodicalScan rest (lastHolding.set index none) (index + 1)
        (res.1, true, res.2.2)
      else periodicalScan rest lastHolding (index + 1)

/-- Go `periodicalDetection` (detector.go lines 254-292): the returned flag is
whether the search `detectionPeriodical` is invoked, together with the
updated `lastHolding` buffer.  `numGoroutine` is `runtime.NumGoroutine()`. -/
def periodicalDetection (numGoroutine : Nat) (routines : List Routine)
    (lastHolding : List (Option MutexInt)) : Bool × List (Option MutexInt) :=
  if numGoroutine < 2 then (false, lastHolding)
  else
    if !(periodicalScan routines lastHolding 0).2.1 ||
        (periodicalScan routines lastHolding 0).1 ≤ 1 then
      (false, (periodicalScan routines lastHolding 0).2.2)
    else (true, (periodicalScan routines lastHolding 0).2.2)

/-! ### mutexInt.go: the interception layer -/

/-- The mutable state the interception layer reads and writes: each handle's
`numberLocked` and `isLockedRoutineIndex` map, the reader flags, and the
registered routine states. -/
structure GState where
  numberLocked : MutexInt → Int
  heldBy : MutexInt → Int → Int
  env : Env
  routines : List Routine

/-- Outcome of one interception call: normal return with the new state,
double-lock report followed by `os.Exit(2)` (routine.go lines 357-359), or a
fatal panic (capacity overflow / unlock of an unlocked handle). -/
inductive IntResult where
  | ok (s : GState)
  | doubleLockExit
  | fatal

/-- The deferred `*m.getNumberLocked() += 1` that runs on every non-exiting
path of `lockInt` after the bookkeeping (mutexInt.go lines 312-327). -/
def bumpLocked (s : GState) (m : MutexInt) : GState :=
  { s with numberLocked := fun l =>
      if l = m then s.numberLocked l + 1 else s.numberLocked l }

/-- Go `lockInt` (mutexInt.go lines 286-357) for a call by the goroutine
registered at routine index `index` (thread registration itself, lines
335-339, is the identity once the routine exists).  `multi` is
`runtime.NumGoroutine() > 1`; the initialization check (line 305) is elided
because every constructed handle has `in = true`.  The deferred primitive
lock call has no detector-visible effect beyond `numberLocked`. -/
def lockInt (o : Opts) (multi : Bool) (s : GState) (index : Nat) (m : MutexInt)
    (rLock : Bool) : IntResult :=
  if !o.activated then .ok s
  else if !o.periodicDetection && !o.comprehensiveDetection then .ok (bumpLocked s m)
  else if o.checkDoubleLocking && !(s.numberLocked m == 0) &&
      checkDoubleLocking s.env (s.heldBy m) m (index : Int) rLock then
    .doubleLockExit
  else
    let s1 := { s with heldBy := fun l j =>
        if l = m ∧ j = (index : Int) then s.heldBy l j + 1 else s.heldBy l j }
    if multi then
      match updateLock o s1.env (s1.routines.getD index default) m rLock with
      | none => .fatal
      | some er =>
        .ok (bumpLocked { s1 with env := er.1, routines := s1.routines.set index er.2 } m)
    else .ok (bumpLocked s1 m)

/-- Go `unlockInt` (mutexInt.go lines 446-479), with the `opts.activated` guard
of its callers (mutex.go line 168, rwMutex.go lines 205 and 214) folded in.
The deferred block decrements `numberLocked` and the caller's entry of
`isLockedRoutineIndex` on every non-panicking path. -/
def unlockInt (o : Opts) (s : GState) (index : Nat) (m : MutexInt) : IntResult :=
  if !o.activated then .ok s
  else if s.numberLocked m == 0 then .fatal
  else
    let dec := fun (s' : GState) =>
      { s' with
        numberLocked := fun l => if l = m then s'.numberLocked l - 1 else s'.numberLocked l
        heldBy := fun l j =>
          if l = m ∧ j = (index : Int) then s'.heldBy l j - 1 else s'.heldBy l j }
    if !o.periodicDetection && !o.comprehensiveDetection then .ok (dec s)
    else
      let rs' := s.routines.set index (updateUnlock (s.routines.getD index default) m)
      .ok (dec { s with routines := rs' })

/-- Go `tryLockInt` (mutexInt.go lines 366-439).  `primRes` is the result of the
underlying primitive try call, which happens first and gates all
bookkeeping.  `r := &routines[index]` on line 433 reads the *outer* `index`
variable of line 408, which the `index := getRoutineIndex()` on line 411
shadowed inside the `if res` block; the outer variable still holds its zero
value, so a successful try-lock updates `routines[0]`, whatever the calling
routine.  A `none` result is the holding-depth-overflow panic. -/
def tryLockInt (o : Opts) (multi : Bool) (s : GState) (index : Nat) (m : MutexInt)
    (rLock : Bool) (primRes : Bool) : Option (GState × Bool) :=
  if !o.activated then some (s, primRes)
  else
    let s1 := if primRes then
        bumpLocked { s with heldBy := fun l j =>
          if l = m ∧ j = (index : Int) then s.heldBy l j + 1 else s.heldBy l j } m
      else s
    if !o.periodicDetection && !o.comprehensiveDetection then some (s1, primRes)
    else if multi && primRes then
      match updateTryLock o s1.env (s1.routines.getD 0 default) m rLock with
      | none => none
      | some er => some ({ s1 with env := er.1, routines := s1.routines.set 0 er.2 }, primRes)
    else some (s1, primRes)

/-- The underlying primitive try operation `tryLockInt` invokes (mutexInt.go
lines 393-405): `TryLock` of the `sync.Mutex` for a `Mutex` handle, and for
an `RWMutex` handle either `TryRLock` or `TryLock` of the `sync.RWMutex`,
depending on the `rLock` flag. -/
inductive PrimTryOp where
  | mutexTryLock
  | rwTryLock
  | rwTryRLock
  deriving DecidableEq, Repr

/-- Which primitive try call `tryLockInt m rLock` performs. -/
def primTry (m : MutexInt) (rLock : Bool) : PrimTryOp :=
  if m.isMutex then .mutexTryLock
  else if rLock then .rwTryRLock else .rwTryLock

/-- Go `RWMutex.TryLock` (rwMutex.go lines 186-190): `tryLockInt(m, false)`. -/
def rwMutexTryLock (o : Opts) (multi : Bool) (s : GState) (index : Nat)
    (m : MutexInt) (primRes : Bool) : Option (GState × Bool) :=
  tryLockInt o multi s index m false primRes

/-- Go `RWMutex.RTryLock` (rwMutex.go lines 195-199): also `tryLockInt(m,
false)` -- the reader flag is not passed on. -/
def rwMutexRTryLock (o : Opts) (multi : Bool) (s : GState) (index : Nat)
    (m : MutexInt) (primRes : Bool) : Option (GState × Bool) :=
  tryLockInt o multi s index m false primRes

/-- Outcome of a sequence of lock acquisitions fed through `lockInt`. -/
inductive SeqOutcome where
  | finished
  | doubleLocked
  | fatalled
  deriving DecidableEq, Repr

/-- Run a list of `(routine index, lock, reader flag)` acquisitions through
`lockInt`, reporting how the sequence ends. -/
def runLockSeq (o : Opts) (multi : Bool) (s : GState) :
    List (Nat × MutexInt × Bool) → SeqOutcome
  | [] => .finished
  | c :: rest =>
    match lockInt o multi s c.1 c.2.1 c.2.2 with
    | .ok s' => runLockSeq o multi s' rest
    | .doubleLockExit => .doubleLocked
    | .fatal => .fatalled

/-! ### Concrete instances used by witnesses and counterexamples -/

/-- A small but legal configuration of the options. -/
def smallOpts : Opts :=
  { defaultOpts with maxDependencies := 4, maxNumberOfDependentLocks := 2, maxRoutines := 4 }

/-- The all-clear reader-flag state (no lock read-held by anybody). -/
def envFalse : Env := fun _ _ => false

/-- Three plain mutexes and two rw-mutexes at distinct memory positions. -/
def mA : MutexInt := ⟨1, true⟩

def mB : MutexInt := ⟨2, true⟩

def mC : MutexInt := ⟨3, true⟩

def rwA : MutexInt := ⟨4, false⟩

def rwB : MutexInt := ⟨5, false⟩

/-- A freshly registered routine state at index 0 under `smallOpts` (what
`newRoutine` builds, routine.go lines 87-96). -/
def r0init : Routine :=
  { index := 0
    holdingCount := 0
    holdingSet := List.replicate 2 none
    dependencyMap := []
    dependencies := []
    depCount := 0
    curDep := none }

/-- A freshly registered routine state at index 1 under `smallOpts`. -/
def r1init : Routine := { r0init with index := 1 }

/-! ### Helper lemmas -/

theorem updateTryLock_eq_some {o : Opts} {env : Env} {r : Routine} {m : MutexInt}
    {rl : Bool} {env' : Env} {r' : Routine}
    (h : updateTryLock o env r m rl = some (env', r')) :
    r'.dependencies = r.dependencies ∧ r'.depCount = r.depCount ∧
    r'.dependencyMap = r.dependencyMap ∧ r'.curDep = r.curDep ∧
    r'.index = r.index ∧
    r'.holdingSet = r.holdingSet.set r.holdingCount (some m) ∧
    r'.holdingCount = r.holdingCount + 1 ∧
    env' = setRLock env m r.index rl ∧
    r.holdingCount < o.maxNumberOfDependentLocks := by
  unfold updateTryLock at h
  split at h
  · exact absurd h (by simp)
  · simp only [Option.some.injEq, Prod.mk.injEq] at h
    obtain ⟨he, hr⟩ := h
    subst he hr
    exact ⟨rfl, rfl, rfl, rfl, rfl, rfl, rfl, rfl, by omega⟩

theorem updateTryLock_eq (o : Opts) (env : Env) (r : Routine) (m : MutexInt) (rl : Bool)
    (hlt : r.holdingCount < o.maxNumberOfDependentLocks) :
    updateTryLock o env r m rl = some (setRLock env m r.index rl,
      { r with holdingSet := r.holdingSet.set r.holdingCount (some m)
               holdingCount := r.holdingCount + 1 }) := by
  unfold updateTryLock
  rw [if_neg (not_le.mpr hlt)]

theorem updateUnlock_tree_eq (r : Routine) (m : MutexInt) :
    (updateUnlock r m).dependencies = r.dependencies ∧
    (updateUnlock r m).depCount = r.depCount ∧
    (updateUnlock r m).dependencyMap = r.dependencyMap ∧
    (updateUnlock r m).curDep = r.curDep ∧
    (updateUnlock r m).index = r.index := by
  unfold updateUnlock
  split <;> exact ⟨rfl, rfl, rfl, rfl, rfl⟩

theorem findTopmost_eq_none_iff (hs : List (Option MutexInt)) (m : MutexInt) (k : Nat) :
    findTopmost hs m k = none ↔ ∀ i, i < k → hs.getD i none ≠ some m := by
  induction k with
  | zero => simp [findTopmost]
  | succ k ih =>
    unfold findTopmost
    by_cases h : hs.getD k none = some m
    · simp only [h, beq_self_eq_true, if_true]
      constructor
      · intro hc
        exact absurd hc (by simp)
      · intro hall
        exact absurd h (hall k (Nat.lt_succ_self k))
    · have hb : (hs.getD k none == some m) = false := beq_eq_false_iff_ne.2 h
      simp only [hb, Bool.false_eq_true, if_false, ih]
      constructor
      · intro hall i hi
        rcases Nat.lt_succ_iff_lt_or_eq.1 hi with hlt | heq
        · exact hall i hlt
        · subst heq; exact h
      · intro hall i hi
        exact hall i (Nat.lt_succ_of_lt hi)

theorem findTopmost_eq_some_iff (hs : List (Option MutexInt)) (m : MutexInt) (k i : Nat) :
    findTopmost hs m k = some i ↔
      i < k ∧ hs.getD i none = some m ∧
        ∀ j, i < j → j < k → hs.getD j none ≠ some m := by
  induction k with
  | zero => simp [findTopmost]
  | succ k ih =>
    unfold findTopmost
    by_cases h : hs.getD k none = some m
    · simp only [h, beq_self_eq_true, if_true, Option.some.injEq]
      constructor
      · intro hk
        subst hk
        exact ⟨Nat.lt_succ_self k, h, fun j hj hj' => absurd hj' (by omega)⟩
      · intro ⟨hik, hm, htop⟩
        rcases Nat.lt_succ_iff_lt_or_eq.1 hik with hlt | heq
        · exact absurd h (htop k hlt (Nat.lt_succ_self k))
        · omega
    · have hb : (hs.getD k none == some m) = false := beq_eq_false_iff_ne.2 h
      simp only [hb, Bool.false_eq_true, if_false, ih]
      constructor
      · intro ⟨hik, hm, htop⟩
        refine ⟨Nat.lt_succ_of_lt hik, hm, fun j hj hj' => ?_⟩
        rcases Nat.lt_succ_iff_lt_or_eq.1 hj' with hlt | heq
        · exact htop j hj hlt
        · subst heq; exact h
      · intro ⟨hik, hm, htop⟩
        have hik' : i < k := by
          rcases Nat.lt_succ_iff_lt_or_eq.1 hik with hlt | heq
          · exact hlt
          · subst heq; exact absurd hm h
        exact ⟨hik', hm, fun j hj hj' => htop j hj (Nat.lt_succ_of_lt hj')⟩

/-! ### C6: updateUnlock removes exactly the topmost occurrence -/

/-- C6.  `updateUnlock(m)` removes exactly the topmost occurrence of `m` from
the holding set (scanning from `holdingCount - 1` downward, splicing out the
first match while keeping the other entries in order, and decrementing the
count by one); if `m` does not occur among the first `holdingCount` entries,
the routine state is left completely unchanged. -/
theorem updateUnlock_topmost (r : Routine) (m : MutexInt) :
    ((∀ i, i < r.holdingCount → r.holdingSet.getD i none ≠ some m) →
      updateUnlock r m = r) ∧
    (∀ i, i < r.holdingCount → r.holdingSet.getD i none = some m →
      (∀ j, i < j → j < r.holdingCount → r.holdingSet.getD j none ≠ some m) →
      updateUnlock r m = { r with
        holdingSet := r.holdingSet.take i ++ r.holdingSet.drop (i + 1) ++ [none]
        holdingCount := r.holdingCount - 1 }) := by
  constructor
  · intro habs
    unfold updateUnlock
    rw [(findTopmost_eq_none_iff _ _ _).2 habs]
  · intro i hi hm htop
    unfold updateUnlock
    rw [(findTopmost_eq_some_iff _ _ _ _).2 ⟨hi, hm, htop⟩]

/-- A routine holding `mA`, `mB`, `mA` (bottom to top). -/
def c6r : Routine :=
  { r0init with holdingCount := 3, holdingSet := [some mA, some mB, some mA, none] }

theorem updateUnlock_topmost_witness :
    updateUnlock c6r mA = { c6r with
      holdingSet := c6r.holdingSet.take 2 ++ c6r.holdingSet.drop 3 ++ [none]
      holdingCount := c6r.holdingCount - 1 } :=
  (updateUnlock_topmost c6r mA).2 2 (by decide) (by decide)
    (by intro j hj hj' heq; have h3 : c6r.holdingCount = 3 := rfl; omega)

/-! ### C5: updateTryLock creates no dependency -/

/-- C5.  A successful try-lock never creates a dependency: `updateTryLock`
leaves `dependencies`, `depCount`, `dependencyMap` and `curDep` unchanged and
only appends `m` to the holding set, increments the count and sets the
reader flag; consequently a sequence of successful try-locks and unlocks
never changes the dependency data. -/
theorem updateTryLock_frame :
    (∀ o env r m rl env' r', updateTryLock o env r m rl = some (env', r') →
      r'.dependencies = r.dependencies ∧ r'.depCount = r.depCount ∧
      r'.dependencyMap = r.dependencyMap ∧ r'.curDep = r.curDep ∧
      r'.holdingSet = r.holdingSet.set r.holdingCount (some m) ∧
      r'.holdingCount = r.holdingCount + 1 ∧
      env' = setRLock env m r.index rl) ∧
    (∀ o ops, (∀ op ∈ ops, op.isLock = false) →
      ∀ env r env' r', runOps o env r ops = some (env', r') →
        r'.dependencies = r.dependencies ∧ r'.depCount = r.depCount ∧
        r'.dependencyMap = r.dependencyMap ∧ r'.curDep = r.curDep) := by
  constructor
  · intro o env r m rl env' r' h
    obtain ⟨h1, h2, h3, h4, _, h6, h7, h8, -⟩ := updateTryLock_eq_some h
    exact ⟨h1, h2, h3, h4, h6, h7, h8⟩
  · intro o ops
    induction ops with
    | nil =>
      intro _ env r env' r' h
      simp only [runOps, Option.some.injEq, Prod.mk.injEq] at h
      obtain ⟨-, hr⟩ := h
      subst hr
      exact ⟨rfl, rfl, rfl, rfl⟩
    | cons op rest ih =>
      intro hshape env r env' r' h
      simp only [runOps] at h
      cases hop : runOp o env r op with
      | none => rw [hop] at h; exact absurd h (by simp)
      | some er =>
        rw [hop] at h
        obtain ⟨em, rm⟩ := er
        have hrest := ih (fun op' hop' => hshape op' (List.mem_cons_of_mem _ hop'))
          em rm env' r' h
        cases op with
        | lockOp m rl =>
          exact absurd (hshape _ (List.mem_cons_self _ _)) (by simp [LockOp.isLock])
        | tryLockOp m rl =>
          obtain ⟨h1, h2, h3, h4, -, -, -, -, -⟩ :=
            updateTryLock_eq_some (show updateTryLock o env r m rl = some (em, rm) from hop)
          exact ⟨hrest.1.trans h1, hrest.2.1.trans h2, hrest.2.2.1.trans h3,
            hrest.2.2.2.trans h4⟩
        | unlockOp m =>
          have hrm : rm = updateUnlock r m := by
            simp only [runOp, Option.some.injEq, Prod.mk.injEq] at hop
            exact hop.2.symm
          obtain ⟨h1, h2, h3, h4, -⟩ := updateUnlock_tree_eq r m
          subst hrm
          exact ⟨hrest.1.trans h1, hrest.2.1.trans h2, hrest.2.2.1.trans h3,
            hrest.2.2.2.trans h4⟩

theorem updateTryLock_frame_witness :
    ∃ env' r', runOps smallOpts envFalse r0init
        [LockOp.tryLockOp mA false, LockOp.tryLockOp mB true, LockOp.unlockOp mA] =
        some (env', r') ∧
      r'.dependencies = r0init.dependencies ∧ r'.depCount = r0init.depCount ∧
      r'.dependencyMap = r0init.dependencyMap ∧ r'.curDep = r0init.curDep := by
  refine ⟨_, _, rfl, ?_⟩
  exact updateTryLock_frame.2 smallOpts
    [LockOp.tryLockOp mA false, LockOp.tryLockOp mB true, LockOp.unlockOp mA]
    (by decide) envFalse r0init _ _ rfl

/-! ### C10: RTryLock coincides with TryLock -/

/-- C10.  `RWMutex.RTryLock` is extensionally equal to `RWMutex.TryLock`:
both call `tryLockInt` with the reader flag `false`, so a reader try-lock
performs the underlying writer try-lock and records a successful acquisition
with reader flag `false`; on every state both return the same result and
produce the same state change. -/
theorem rTryLock_eq_tryLock :
    (∀ o multi s index m primRes,
      rwMutexRTryLock o multi s index m primRes =
        rwMutexTryLock o multi s index m primRes) ∧
    (∀ o multi s index m primRes,
      rwMutexRTryLock o multi s index m primRes =
        tryLockInt o multi s index m false primRes) ∧
    (∀ pos, primTry ⟨pos, false⟩ false = PrimTryOp.rwTryLock) :=
  ⟨fun _ _ _ _ _ _ => rfl, fun _ _ _ _ _ _ => rfl, fun _ => rfl⟩

/-! ### C9: the dependency constructor leaves the live slots nil -/

/-- C9 (failing input).  `newDependency` with a one-element snapshot leaves
position 0 of the stored holding set nil and stores the snapshot entry at
position `maxNumberOfDependentLocks` instead, because the constructor
appends to a slice already filled with `maxNumberOfDependentLocks` nil
entries (dependency.go lines 58-64). -/
theorem newDependency_live_slots_nil :
    (newDependency smallOpts mA [some mB] 1).holdingCount = 1 ∧
    (newDependency smallOpts mA [some mB] 1).holdingSet.getD 0 none = none ∧
    (newDependency smallOpts mA [some mB] 1).holdingSet.getD
      smallOpts.maxNumberOfDependentLocks none = some mB := by decide

/-! ### C1: characterisation of isChain -/

theorem isChain_some (env : Env) (stack : List StackElem) (dep : Dependency)
    (ri : Int) (top : StackElem) (h : stack.getLast? = some top) :
    isChain env stack dep ri =
      (if !((List.range dep.holdingCount).any fun i =>
          muEqualO (dep.holdingSet.getD i none) top.depEntry.mu &&
            !(getRLockO env (dep.holdingSet.getD i none) ri &&
              getRLock env top.depEntry.mu top.index)) then false
       else stack.all fun c =>
        !(c.depEntry == dep) &&
          (List.range dep.holdingCount).all fun i =>
            (List.range c.depEntry.holdingCount).all fun j =>
              !(muEqualOO (dep.holdingSet.getD i none) (c.depEntry.holdingSet.getD j none)) ||
                (getRLockO env (c.depEntry.holdingSet.getD j none) c.index &&
                 getRLockO env (dep.holdingSet.getD i none) ri)) := by
  unfold isChain
  rw [h]

/-- C1.  For a non-empty path, `isChain` holds exactly when (1) the top
dependency's acquired lock occurs in the candidate's holding set with a
witness occurrence that is not a reader-reader pair (the occurrence's flag
read at the candidate's routine index, the top lock's flag at the top
element's index), (2) the candidate is not already an element of the path,
and (3) any lock shared between the candidate's holding set and the holding
set of a dependency already in the path is read-held on both sides. -/
theorem isChain_characterisation (env : Env) (stack : List StackElem) (dep : Dependency)
    (ri : Int) (top : StackElem) (htop : stack.getLast? = some top) :
    isChain env stack dep ri = true ↔
      ((∃ i, i < dep.holdingCount ∧
          muEqualO (dep.holdingSet.getD i none) top.depEntry.mu = true ∧
          ¬(getRLockO env (dep.holdingSet.getD i none) ri = true ∧
            getRLock env top.depEntry.mu top.index = true)) ∧
       (∀ c ∈ stack, c.depEntry ≠ dep) ∧
       (∀ c ∈ stack, ∀ i, i < dep.holdingCount → ∀ j, j < c.depEntry.holdingCount →
          muEqualOO (dep.holdingSet.getD i none) (c.depEntry.holdingSet.getD j none) = true →
          (getRLockO env (c.depEntry.holdingSet.getD j none) c.index = true ∧
           getRLockO env (dep.holdingSet.getD i none) ri = true))) := by
  rw [isChain_some env stack dep ri top htop]
  by_cases hf : ((List.range dep.holdingCount).any fun i =>
      muEqualO (dep.holdingSet.getD i none) top.depEntry.mu &&
        !(getRLockO env (dep.holdingSet.getD i none) ri &&
          getRLock env top.depEntry.mu top.index)) = true
  · have hfound : (∃ i, i < dep.holdingCount ∧
        muEqualO (dep.holdingSet.getD i none) top.depEntry.mu = true ∧
        ¬(getRLockO env (dep.holdingSet.getD i none) ri = true ∧
          getRLock env top.depEntry.mu top.index = true)) := by
      simp only [List.any_eq_true, List.mem_range, Bool.and_eq_true, Bool.not_eq_true',
        Bool.and_eq_false_iff] at hf
      obtain ⟨i, hi, h1, h2⟩ := hf
      refine ⟨i, hi, h1, ?_⟩
      rintro ⟨ha, hb⟩
      rcases h2 with h2 | h2 <;> simp_all
    rw [hf]
    simp only [Bool.not_true, Bool.false_eq_true, if_false, List.all_eq_true,
      Bool.and_eq_true, Bool.not_eq_true', beq_eq_false_iff_ne, List.mem_range,
      Bool.or_eq_true, Bool.not_eq_true']
    constructor
    · intro hall
      refine ⟨hfound, fun c hc => (hall c hc).1, fun c hc i hi j hj hm => ?_⟩
      rcases (hall c hc).2 i hi j hj with hcase | hcase
      · exact absurd (hcase.symm.trans hm) (by decide)
      · exact ⟨hcase.1, hcase.2⟩
    · rintro ⟨-, huniq, hgate⟩ c hc
      refine ⟨huniq c hc, fun i hi j hj => ?_⟩
      by_cases hm : muEqualOO (dep.holdingSet.getD i none)
          (c.depEntry.holdingSet.getD j none) = true
      · exact Or.inr (hgate c hc i hi j hj hm)
      · exact Or.inl (Bool.eq_false_iff.2 hm)
  · have hf' : ((List.range dep.holdingCount).any fun i =>
        muEqualO (dep.holdingSet.getD i none) top.depEntry.mu &&
          !(getRLockO env (dep.holdingSet.getD i none) ri &&
            getRLock env top.depEntry.mu top.index)) = false := by
      simpa using hf
    rw [hf']
    simp only [Bool.not_false, if_true, Bool.false_eq_true, false_iff]
    rintro ⟨⟨i, hi, h1, h2⟩, -, -⟩
    apply hf
    simp only [List.any_eq_true, List.mem_range, Bool.and_eq_true, Bool.not_eq_true']
    refine ⟨i, hi, h1, ?_⟩
    rcases hx : getRLockO env (dep.holdingSet.getD i none) ri with - | -
    · simp
    · rcases hy : getRLock env top.depEntry.mu top.index with - | -
      · simp
      · exact absurd ⟨hx, hy⟩ h2

/-- The single path element of the C1 witness: routine 0 acquired `mB` while
holding `mA`. -/
def c1top : StackElem := ⟨⟨mB, [some mA], 1⟩, 0⟩

/-- Candidate of the C1 witness: routine 1 acquires `mC` while holding `mB`. -/
def c1dep : Dependency := ⟨mC, [some mB], 1⟩

theorem isChain_characterisation_witness :
    isChain envFalse [c1top] c1dep 1 = true :=
  (isChain_characterisation envFalse [c1top] c1dep 1 c1top rfl).2 (by decide)

/-! ### C2: isCycleChain reads the sentinel's index -/

/-- Reader flags for the C2 input: `rwA` is read-held by routines 0 and 1. -/
def c2env : Env := fun l i => decide (l = rwA ∧ (i = 0 ∨ i = 1))

/-- Bottom dependency of the C2 input: routine 0 acquired `rwB` while
read-holding `rwA`. -/
def c2bottom : Dependency := ⟨rwB, [some rwA], 1⟩

/-- Closing candidate of the C2 input: routine 1 acquires `rwA` (as reader)
while holding `rwB`. -/
def c2cand : Dependency := ⟨rwA, [some rwB], 1⟩

/-- C2 (failing input).  `isCycleChain` returns `true` here although the only
occurrence of the candidate's acquired lock in the bottom dependency's
holding set is a reader-reader pair when the occurrence's flag is read at the
bottom's routine index 0 -- under the claimed rule the result would be
`false`.  The code reads the flag at `dStack.stack.index`, the sentinel's
constant -1, where no flag is ever set. -/
theorem isCycleChain_sentinel_flag :
    isCycleChain c2env [⟨c2bottom, 0⟩] c2cand 1 = true ∧
    (∀ i, i < c2bottom.holdingCount →
      muEqualO (c2bottom.holdingSet.getD i none) c2cand.mu = true →
      (getRLockO c2env (c2bottom.holdingSet.getD i none) 0 = true ∧
       getRLock c2env c2cand.mu 1 = true)) := by decide

/-! ### C4: the double-lock trigger -/

theorem checkDoubleLocking_eq_true (env : Env) (hb : Int → Int) (m : MutexInt)
    (ri : Int) (rl : Bool) :
    checkDoubleLocking env hb m ri rl = true ↔
      (¬ hb ri = 0 ∧ ¬(rl = true ∧ getRLock env m ri = true)) := by
  unfold checkDoubleLocking
  by_cases h1 : hb ri = 0
  · simp [h1]
  · have hb1 : (hb ri == 0) = false := by simpa using h1
    by_cases h2 : rl <;> by_cases h3 : getRLock env m ri = true <;>
      simp [hb1, h1, h2, h3]

/-- The pristine interception state: nothing locked, no reader flags, two
registered routines. -/
def gs0 : GState :=
  { numberLocked := fun _ => 0
    heldBy := fun _ _ => 0
    env := envFalse
    routines := [r0init, r1init] }

/-- C4.  With double-lock checking enabled, `lockInt` reports double locking
and exits (status 2) exactly when the acquiring routine already holds the
lock and the existing hold and the new attempt are not both reader
acquisitions; in particular routine 0 locking then routine 1 locking the
same mutex never triggers it, routine 0 locking the same mutex twice does,
and routine 0 read-locking an rw-mutex twice does not.  (The hypothesis ties
`numberLocked` to the per-routine hold count, which every reachable state
satisfies: the lock counts every holder.) -/
theorem doubleLock_trigger_iff :
    (∀ o multi s index m rLock,
      o.activated = true →
      (o.periodicDetection || o.comprehensiveDetection) = true →
      o.checkDoubleLocking = true →
      (s.heldBy m (index : Int) ≠ 0 → s.numberLocked m ≠ 0) →
      0 ≤ s.heldBy m (index : Int) →
      (lockInt o multi s index m rLock = .doubleLockExit ↔
        (0 < s.heldBy m (index : Int) ∧
          ¬(rLock = true ∧ getRLock s.env m (index : Int) = true)))) ∧
    runLockSeq smallOpts true gs0 [(0, mA, false), (1, mA, false)] = .finished ∧
    runLockSeq smallOpts true gs0 [(0, mA, false), (0, mA, false)] = .doubleLocked ∧
    runLockSeq smallOpts true gs0 [(0, rwA, true), (0, rwA, true)] = .finished := by
  refine ⟨?_, by decide, by decide, by decide⟩
  intro o multi s index m rLock ha hdet hchk himpl hnonneg
  have hdet2 : o.periodicDetection = true ∨ o.comprehensiveDetection = true := by
    simpa using hdet
  have hdet' : (!o.periodicDetection && !o.comprehensiveDetection) = false := by
    rcases hdet2 with h | h <;> simp [h]
  unfold lockInt
  simp only [ha, hchk, hdet', Bool.not_true, Bool.false_eq_true, if_false, true_and,
    Bool.and_eq_true, Bool.not_eq_true']
  by_cases htrig : ((s.numberLocked m == 0) = false ∧
      checkDoubleLocking s.env (s.heldBy m) m (index : Int) rLock = true)
  · rw [if_pos htrig]
    obtain ⟨hheld, hflag⟩ := (checkDoubleLocking_eq_true _ _ _ _ _).1 htrig.2
    simp only [true_iff]
    exact ⟨by omega, hflag⟩
  · rw [if_neg htrig]
    constructor
    · intro h
      split at h
      · split at h
        · exact IntResult.noConfusion h
        · exact IntResult.noConfusion h
      · exact IntResult.noConfusion h
    · rintro ⟨hpos, hflag⟩
      exfalso
      apply htrig
      refine ⟨?_, (checkDoubleLocking_eq_true _ _ _ _ _).2 ⟨by omega, hflag⟩⟩
      simpa using himpl (by omega)

/-- A state in which routine 0 holds `mA` once. -/
def gs1 : GState :=
  { gs0 with
    numberLocked := fun l => if l = mA then 1 else 0
    heldBy := fun l j => if l = mA ∧ j = 0 then 1 else 0 }

theorem doubleLock_trigger_iff_witness :
    lockInt smallOpts true gs1 0 mA false = .doubleLockExit ↔
      (0 < gs1.heldBy mA 0 ∧ ¬(false = true ∧ getRLock gs1.env mA 0 = true)) :=
  doubleLock_trigger_iff.1 smallOpts true gs1 0 mA false rfl rfl rfl
    (by decide) (by decide)

/-! ### C7: when the periodical detection runs -/

theorem periodicalScan_sthNew (rs : List Routine) :
    ∀ lh idx, (periodicalScan rs lh idx).2.1 = true →
      ∃ k, k < rs.length ∧
        ((0 < (rs.getD k default).holdingCount ∧
            lh.getD (idx + k) none ≠ (rs.getD k default).holdingSet.getD
              ((rs.getD k default).holdingCount - 1) none) ∨
         ((rs.getD k default).holdingCount = 0 ∧ lh.getD (idx + k) none ≠ none)) := by
  induction rs with
  | nil => intro lh idx h; simp [periodicalScan] at h
  | cons r rest ih =>
    intro lh idx h
    unfold periodicalScan at h
    by_cases h1 : 0 < r.holdingCount
    · rw [if_pos h1] at h
      cases hbeq : (lh.getD idx none == r.holdingSet.getD (r.holdingCount - 1) none) with
      | false =>
        refine ⟨0, by simp, Or.inl ⟨h1, ?_⟩⟩
        simpa using beq_eq_false_iff_ne.mp hbeq
      | true =>
        rw [hbeq] at h
        simp only [Bool.not_true, Bool.false_eq_true, if_false] at h
        obtain ⟨k, hk, hcond⟩ := ih lh (idx + 1) h
        refine ⟨k + 1, by simpa using hk, ?_⟩
        have harith : idx + (k + 1) = (idx + 1) + k := by omega
        simpa [harith, List.getD_cons_succ] using hcond
    · rw [if_neg h1] at h
      have h0 : r.holdingCount = 0 := by omega
      cases hbeq : (lh.getD idx none == (none : Option MutexInt)) with
      | false =>
        refine ⟨0, by simp, Or.inr ⟨h0, ?_⟩⟩
        simpa using beq_eq_false_iff_ne.mp hbeq
      | true =>
        rw [hbeq] at h
        simp only [Bool.not_true, Bool.false_eq_true, if_false] at h
        obtain ⟨k, hk, hcond⟩ := ih lh (idx + 1) h
        refine ⟨k + 1, by simpa using hk, ?_⟩
        have harith : idx + (k + 1) = (idx + 1) + k := by omega
        simpa [harith, List.getD_cons_succ] using hcond

theorem periodicalScan_counter (rs : List Routine) :
    ∀ lh idx, (periodicalScan rs lh idx).1 ≤
      (rs.filter (fun r => decide (1 < r.holdingCount))).length := by
  induction rs with
  | nil => intro lh idx; simp [periodicalScan]
  | cons r rest ih =>
    intro lh idx
    unfold periodicalScan
    rw [List.filter_cons]
    by_cases h1 : 0 < r.holdingCount
    · rw [if_pos h1]
      cases hbeq : (lh.getD idx none == r.holdingSet.getD (r.holdingCount - 1) none) with
      | false =>
        simp only [hbeq, Bool.not_false, if_true]
        by_cases h2 : 1 < r.holdingCount
        · have := ih (lh.set idx (r.holdingSet.getD (r.holdingCount - 1) none)) (idx + 1)
          simp [h2] at this ⊢
          omega
        · have := ih (lh.set idx (r.holdingSet.getD (r.holdingCount - 1) none)) (idx + 1)
          simp [h2] at this ⊢
          omega
      | true =>
        simp only [hbeq, Bool.not_true, Bool.false_eq_true, if_false]
        have := ih lh (idx + 1)
        split
        · simp only [List.length_cons]; omega
        · omega
    · rw [if_neg h1]
      have h2 : ¬(1 < r.holdingCount) := by omega
      have hdec : decide (1 < r.holdingCount) = false := by simp [h2]
      cases hbeq : (lh.getD idx none == (none : Option MutexInt)) with
      | false =>
        simp only [hbeq, Bool.not_false, if_true]
        have := ih (lh.set idx none) (idx + 1)
        simp [h2] at this ⊢
        omega
      | true =>
        simp only [hbeq, Bool.not_true, Bool.false_eq_true, if_false]
        have := ih lh (idx + 1)
        simp [h2] at this ⊢
        omega

/-- C7.  The periodical pass invokes the cycle search only when some
routine's most recent top-of-holding-set entry differs from the snapshot
taken at the previous tick and at least two routines currently hold more
than one lock; if either condition fails, `periodicalDetection` returns
without invoking `detectionPeriodical`. -/
theorem periodicalDetection_necessary (numG : Nat) (rs : List Routine)
    (lh : List (Option MutexInt)) :
    (periodicalDetection numG rs lh).1 = true →
      ((∃ i, i < rs.length ∧
        ((0 < (rs.getD i default).holdingCount ∧
            lh.getD i none ≠ (rs.getD i default).holdingSet.getD
              ((rs.getD i default).holdingCount - 1) none) ∨
         ((rs.getD i default).holdingCount = 0 ∧ lh.getD i none ≠ none))) ∧
       2 ≤ (rs.filter (fun r => decide (1 < r.holdingCount))).length) := by
  intro h
  unfold periodicalDetection at h
  split at h
  · exact absurd h (by simp)
  · split at h
    · exact absurd h (by simp)
    · rename_i hcond
      simp only [Bool.or_eq_true, Bool.not_eq_true', decide_eq_true_eq, not_or] at hcond
      obtain ⟨hsth, hnr⟩ := hcond
      constructor
      · have := periodicalScan_sthNew rs lh 0 (by
          cases hval : (periodicalScan rs lh 0).2.1 with
          | false => exact absurd hval hsth
          | true => rfl)
        simpa using this
      · have hcount := periodicalScan_counter rs lh 0
        omega

/-- Two routines each holding two locks, for the C7 witness. -/
def rs7 : List Routine :=
  [{ r0init with holdingCount := 2, holdingSet := [some mA, some mB] },
   { r1init with holdingCount := 2, holdingSet := [some mC, some mA] }]

/-- An all-empty previous snapshot. -/
def lh7 : List (Option MutexInt) := [none, none]

theorem periodicalDetection_necessary_witness :
    (∃ i, i < rs7.length ∧
      ((0 < (rs7.getD i default).holdingCount ∧
          lh7.getD i none ≠ (rs7.getD i default).holdingSet.getD
            ((rs7.getD i default).holdingCount - 1) none) ∨
       ((rs7.getD i default).holdingCount = 0 ∧ lh7.getD i none ≠ none))) ∧
    2 ≤ (rs7.filter (fun r => decide (1 < r.holdingCount))).length :=
  periodicalDetection_necessary 2 rs7 lh7 (by decide)

/-! ### C8: one dependency per routine on explored paths -/

theorem getD_set_self {l : List Bool} {i : Nat} (h : i < l.length) :
    (l.set i true).getD i false = true := by
  simp [List.getD_eq_getElem?_getD, List.getElem?_set, h]

theorem getD_set_other {l : List Bool} {i j : Nat} (b : Bool) (h : i ≠ j) :
    (l.set i b).getD j false = l.getD j false := by
  simp [List.getD_eq_getElem?_getD, List.getElem?_set, h]

theorem foldl_hold_mem {α β : Type _} (P : β → Prop) (op : β → α → β) :
    ∀ (l : List α) (b : β), P b → (∀ acc a, a ∈ l → P acc → P (op acc a)) →
      P (l.foldl op b) := by
  intro l
  induction l with
  | nil => intro b hb _; simpa using hb
  | cons a t ih =>
    intro b hb hstep
    exact ih (op b a) (hstep b a (List.mem_cons_self _ _) hb)
      (fun acc x hx => hstep acc x (List.mem_cons_of_mem _ hx))

theorem isChain_not_mem {env : Env} {stack : List StackElem} {dep : Dependency}
    {ri : Int} (h : isChain env stack dep ri = true) :
    ∀ c ∈ stack, c.depEntry ≠ dep := by
  cases hlast : stack.getLast? with
  | none =>
    unfold isChain at h
    rw [hlast] at h
    exact absurd h (by simp)
  | some top =>
    rw [isChain_some env stack dep ri top hlast] at h
    split at h
    · exact absurd h (by simp)
    · intro c hc
      have h2 := List.all_eq_true.mp h c hc
      simp only [Bool.and_eq_true] at h2
      simpa using h2.1

/-- Path invariant of the comprehensive `dfs`: if every element of the
current path carries a routine index marked in `isTraversed` and the indices
are pairwise distinct, then the same holds of every explored path it
returns, each with respect to the traversal array recorded at its push. -/
theorem dfs_invariant (cfg : Cfg) (env : Env) :
    ∀ fuel stack visiting isT,
      isT.length = cfg.numberRoutines →
      (∀ e ∈ stack, ∃ k : Nat, e.index = (k : Int) ∧ isT.getD k false = true) →
      (stack.map StackElem.index).Pairwise (· ≠ ·) →
      ∀ st ∈ dfs cfg env fuel stack visiting isT,
        (st.1.map StackElem.index).Pairwise (· ≠ ·) ∧
        st.2.length = cfg.numberRoutines ∧
        ∀ e ∈ st.1, ∃ k : Nat, e.index = (k : Int) ∧ st.2.getD k false = true := by
  intro fuel
  induction fuel with
  | zero =>
    intro stack visiting isT _ _ _ st hst
    simp [dfs] at hst
  | succ fuel ih =>
    intro stack visiting isT hlen hmark hpw st hst
    simp only [dfs, List.mem_flatMap, List.mem_range'] at hst
    obtain ⟨i, hi, hst⟩ := hst
    have hin : i < cfg.numberRoutines := by omega
    by_cases htr : isT.getD i false = true
    · rw [if_pos htr] at hst
      exact absurd hst (by simp)
    · rw [if_neg htr] at hst
      simp only [List.mem_flatMap, List.mem_range] at hst
      obtain ⟨j, hj, hst⟩ := hst
      split at hst
      · split at hst
        · exact absurd hst (by simp)
        · -- recursion push: head snapshot or deeper snapshot
          have hnotmem : ∀ e ∈ stack, e.index ≠ (i : Int) := by
            intro e he heq
            obtain ⟨k, hk, hkm⟩ := hmark e he
            rw [hk] at heq
            have : k = i := by exact_mod_cast heq
            subst this
            exact htr hkm
          have hpw' : ((stack ++ [(⟨(cfg.routines.getD i default).dependencies.getD j
              default, (i : Int)⟩ : StackElem)]).map StackElem.index).Pairwise (· ≠ ·) := by
            rw [List.map_append, List.pairwise_append]
            refine ⟨hpw, by simp, ?_⟩
            intro a ha b hb
            simp only [List.map_cons, List.map_nil, List.mem_singleton] at hb
            subst hb
            simp only [List.mem_map] at ha
            obtain ⟨e, he, hea⟩ := ha
            rw [← hea]
            exact hnotmem e he
          have hmark' : ∀ e ∈ (stack ++ [(⟨(cfg.routines.getD i default).dependencies.getD j
              default, (i : Int)⟩ : StackElem)]), ∃ k : Nat, e.index = (k : Int) ∧
              (isT.set i true).getD k false = true := by
            intro e he
            rcases List.mem_append.mp he with he | he
            · obtain ⟨k, hk, hkm⟩ := hmark e he
              refine ⟨k, hk, ?_⟩
              have hki : i ≠ k := by
                intro heq; subst heq; exact htr hkm
              rw [getD_set_other _ hki]
              exact hkm
            · simp only [List.mem_singleton] at he
              subst he
              exact ⟨i, rfl, getD_set_self (by omega)⟩
          rcases List.mem_cons.mp hst with hst | hst
          · subst hst
            exact ⟨hpw', by simpa using hlen, hmark'⟩
          · exact ih _ _ _ (by simpa using hlen) hmark' hpw' st hst
      · exact absurd hst (by simp)

/-- All explored paths of `detect` carry pairwise-distinct routine indices,
each marked in the traversal array recorded at its push. -/
theorem detect_invariant (cfg : Cfg) (env : Env) (fuel : Nat) :
    ∀ st ∈ detect cfg env fuel,
      (st.1.map StackElem.index).Pairwise (· ≠ ·) ∧
      ∀ e ∈ st.1, ∃ k : Nat, e.index = (k : Int) ∧ st.2.getD k false = true := by
  unfold detect
  have H := foldl_hold_mem
    (fun acc : List (List StackElem × List Bool) × List Bool =>
      acc.2.length = cfg.numberRoutines ∧
      ∀ st ∈ acc.1, (st.1.map StackElem.index).Pairwise (· ≠ ·) ∧
        ∀ e ∈ st.1, ∃ k : Nat, e.index = (k : Int) ∧ st.2.getD k false = true)
    (detectStep cfg env fuel) (List.range cfg.numberRoutines)
    ([], List.replicate cfg.numberRoutines false)
    (by simp)
    (fun acc i hi hacc => by
      have hi' : i < cfg.numberRoutines := List.mem_range.mp hi
      unfold detectStep
      exact foldl_hold_mem _ (detectSeed cfg env fuel i) _ acc hacc
        (fun acc2 j _ hacc2 => by
          unfold detectSeed
          have hlen' : (acc2.2.set i true).length = cfg.numberRoutines := by
            simpa using hacc2.1
          refine ⟨hlen', ?_⟩
          intro st hst
          simp only [List.mem_append] at hst
          rcases hst with (hst | hst) | hst
          · exact hacc2.2 st hst
          · simp only [List.mem_singleton] at hst
            subst hst
            refine ⟨by simp, ?_⟩
            intro e he
            simp only [List.mem_singleton] at he
            subst he
            exact ⟨i, rfl, getD_set_self (by omega)⟩
          · refine dfs_invariant cfg env fuel _ i _ hlen' ?_ (by simp) st hst |>.imp
              id (fun h => h.2)
            intro e he
            simp only [List.mem_singleton] at he
            subst he
            exact ⟨i, rfl, getD_set_self (by omega)⟩))
  exact fun st hst => H.2 st hst

/-- Explored paths of `dfsPeriodical` never repeat a dependency: an auxiliary
statement about its loop, with the recursive behaviour abstracted into a
hypothesis. -/
theorem dfsPeriodical_fold_aux (cfg : Cfg) (env : Env) (fuel : Nat)
    (stack : List StackElem) (visiting : Nat) (isTraversed : List Bool)
    (lastHolding : List (Option MutexInt))
    (hrec : ∀ stack' isT',
      ((stack'.map StackElem.depEntry).Pairwise (· ≠ ·)) →
      ∀ st ∈ (dfsPeriodical cfg env fuel stack' visiting isT' lastHolding).1,
        (st.1.map StackElem.depEntry).Pairwise (· ≠ ·))
    (hpw : (stack.map StackElem.depEntry).Pairwise (· ≠ ·)) :
    ∀ (l : List Nat) (acc : List (List StackElem × List Bool) × Bool),
      (∀ st ∈ acc.1, (st.1.map StackElem.depEntry).Pairwise (· ≠ ·)) →
      ∀ st ∈ (l.foldl
        (fun acc i =>
          if acc.2 then acc
          else
            let r := cfg.routines.getD i default
            match r.curDep with
            | none => acc
            | some dep =>
              if isTraversed.getD i false then acc
              else if !(isChain env stack dep (i : Int)) then acc
              else if isCycleChain env stack dep (i : Int) then
                if sthNewCheck cfg lastHolding (stack ++ [⟨dep, (i : Int)⟩]) then acc
                else (acc.1, true)
              else
                let stack' := stack ++ [⟨dep, (cfg.numberRoutines : Int)⟩]
                let isT' := isTraversed.set cfg.numberRoutines true
                let rec2 := dfsPeriodical cfg env fuel stack' visiting isT' lastHolding
                (acc.1 ++ [(stack', isT')] ++ rec2.1, rec2.2))
        acc).1,
        (st.1.map StackElem.depEntry).Pairwise (· ≠ ·) := by
  intro l
  induction l with
  | nil => intro acc hacc; simpa using hacc
  | cons a t ih =>
    intro acc hacc
    rw [List.foldl_cons]
    apply ih
    by_cases hex : acc.2 = true
    · simp only [hex, if_true]
      exact hacc
    · simp only [Bool.not_eq_true] at hex
      simp only [hex, Bool.false_eq_true, if_false]
      cases hcur : (cfg.routines.getD a default).curDep with
      | none => exact hacc
      | some dep =>
        by_cases htr : isTraversed.getD a false = true
        · simp only [htr, if_true]
          exact hacc
        · simp only [htr, Bool.false_eq_true, if_false]
          by_cases hch : isChain env stack dep (a : Int) = true
          · simp only [hch, Bool.not_true, Bool.false_eq_true, if_false]
            by_cases hcy : isCycleChain env stack dep (a : Int) = true
            · simp only [hcy, if_true]
              split
              · exact hacc
              · exact hacc
            · simp only [Bool.not_eq_true] at hcy
              simp only [hcy, Bool.false_eq_true, if_false]
              intro st hst
              simp only [List.mem_append] at hst
              rcases hst with (hst | hst) | hst
              · exact hacc st hst
              · simp only [List.mem_singleton] at hst
                subst hst
                simp only [List.map_append, List.map_cons, List.map_nil]
                rw [List.pairwise_append]
                refine ⟨hpw, by simp, ?_⟩
                intro x hx y hy
                simp only [List.mem_singleton] at hy
                subst hy
                simp only [List.mem_map] at hx
                obtain ⟨e, he, hex'⟩ := hx
                rw [← hex']
                exact isChain_not_mem hch e he
              · refine hrec _ _ ?_ st hst
                simp only [List.map_append, List.map_cons, List.map_nil]
                rw [List.pairwise_append]
                refine ⟨hpw, by simp, ?_⟩
                intro x hx y hy
                simp only [List.mem_singleton] at hy
                subst hy
                simp only [List.mem_map] at hx
                obtain ⟨e, he, hex'⟩ := hx
                rw [← hex']
                exact isChain_not_mem hch e he
          · simp only [Bool.not_eq_true] at hch
            simp only [hch, Bool.not_false, if_true]
            exact hacc

/-- Explored paths of `dfsPeriodical` have pairwise-distinct dependencies. -/
theorem dfsPeriodical_invariant (cfg : Cfg) (env : Env) :
    ∀ fuel stack visiting isT lh,
      (stack.map StackElem.depEntry).Pairwise (· ≠ ·) →
      ∀ st ∈ (dfsPeriodical cfg env fuel stack visiting isT lh).1,
        (st.1.map StackElem.depEntry).Pairwise (· ≠ ·) := by
  intro fuel
  induction fuel with
  | zero =>
    intro stack visiting isT lh _ st hst
    simp [dfsPeriodical] at hst
  | succ fuel ih =>
    intro stack visiting isT lh hpw st hst
    unfold dfsPeriodical at hst
    exact dfsPeriodical_fold_aux cfg env fuel stack visiting isT lh
      (fun stack' isT' hpw' => ih stack' visiting isT' lh hpw')
      hpw _ ([], false) (by simp) st hst

/-- Explored paths of the periodical entry point `detectionPeriodical` have
pairwise-distinct dependencies. -/
theorem detectionPeriodical_invariant (cfg : Cfg) (env : Env) (fuel : Nat)
    (maxR : Nat) (lh : List (Option MutexInt)) :
    ∀ st ∈ (detectionPeriodical cfg env fuel maxR lh).1,
      (st.1.map StackElem.depEntry).Pairwise (· ≠ ·) := by
  unfold detectionPeriodical
  intro st hst
  have H := foldl_hold_mem
    (fun acc : List (List StackElem × List Bool) × Bool × List Bool × List Routine =>
      ∀ st ∈ acc.1, (st.1.map StackElem.depEntry).Pairwise (· ≠ ·))
    (fun acc index =>
      match acc with
      | (snaps, true, isT, rs) => (snaps, true, isT, rs)
      | (snaps, false, isT, rs) =>
        let r := rs.getD index default
        match r.curDep with
        | none => (snaps, false, isT, rs)
        | some dep =>
          let isT' := isT.set index true
          let stack0 := [(⟨dep, (index : Int)⟩ : StackElem)]
          let rec1 := dfsPeriodical { cfg with routines := rs } env fuel stack0
            index isT' lh
          let rs' := rs.set index { r with curDep := none }
          (snaps ++ [(stack0, isT')] ++ rec1.1, rec1.2, isT', rs'))
    (List.range cfg.numberRoutines)
    (([] : List (List StackElem × List Bool)), false,
      List.replicate maxR false, cfg.routines)
    (by simp)
    (fun acc index _ hacc => by
      obtain ⟨snaps, ex, isT, rs⟩ := acc
      cases ex with
      | true => exact hacc
      | false =>
        dsimp only
        split
        · exact hacc
        · intro st hst
          simp only [List.mem_append, List.mem_cons, List.mem_singleton] at hst
          rcases hst with (hst | hst | hst) | hst
          · exact hacc st hst
          · subst hst
            simp
          · simp at hst
          · exact dfsPeriodical_invariant { cfg with routines := rs } env fuel
              _ index _ lh (by simp) st hst)
  exact H st hst

/-- Routine 0's dependency for the C8 configuration: it acquired `mB` while
holding `mA`. -/
def c8d0 : Dependency := ⟨mB, [some mA], 1⟩

/-- Routine 1's dependency for the C8 configuration: it acquired `mC` while
holding `mB`. -/
def c8d1 : Dependency := ⟨mC, [some mB], 1⟩

/-- Routine 0 of the C8 configuration. -/
def c8r0 : Routine :=
  { index := 0
    holdingCount := 0
    holdingSet := []
    dependencyMap := []
    dependencies := [c8d0]
    depCount := 1
    curDep := some c8d0 }

/-- Routine 1 of the C8 configuration. -/
def c8r1 : Routine := { c8r0 with index := 1, dependencies := [c8d1], curDep := some c8d1 }

/-- Two registered routines whose current dependencies chain but do not
cycle. -/
def cfgC8 : Cfg := ⟨2, [c8r0, c8r1]⟩

/-- The previous-tick snapshot for the C8 run. -/
def lhC8 : List (Option MutexInt) := [none, none, none, none]

/-- C8 (counterexample to the claimed traversal-marker mechanism in the
periodical search).  During `detectionPeriodical` on this configuration the
explored path `[⟨c8d0, 0⟩, ⟨c8d1, 2⟩]` contains routine 1's current
dependency `c8d1`, pushed with index `numberRoutines = 2`, while the
traversal marker of routine 1 is still `false` at that moment: the marker
for the dependency's own routine is never set by the periodical recursion
(detector.go lines 405-406 mark `isTraversed[numberRoutines]` instead). -/
theorem dfsPeriodical_marker_counterexample :
    ((detectionPeriodical cfgC8 envFalse 4 4 lhC8).1.getD 1 ([], [])).1 =
      [⟨c8d0, 0⟩, ⟨c8d1, 2⟩] ∧
    ((detectionPeriodical cfgC8 envFalse 4 4 lhC8).1.getD 1 ([], [])).2.getD 1 false =
      false ∧
    (cfgC8.routines.getD 1 default).curDep = some c8d1 ∧
    (2 : Int) = (cfgC8.numberRoutines : Int) := by decide

/-- C8 (amended).  In the comprehensive search every explored path carries
pairwise-distinct routine indices, each marked in the traversal array while
its dependency is on the path -- the `traversed` marker enforces at most one
dependency per routine there.  In the periodical search the recursion marks
index `numberRoutines` instead of the candidate's routine, and a dependency
cannot recur on a path because each routine offers only its single current
dependency and `isChain` rejects a dependency already contained in the path:
explored paths have pairwise-distinct dependencies. -/
theorem dfs_one_dependency_per_routine :
    (∀ cfg env fuel, ∀ st ∈ detect cfg env fuel,
      (st.1.map StackElem.index).Pairwise (· ≠ ·) ∧
      ∀ e ∈ st.1, ∃ k : Nat, e.index = (k : Int) ∧ st.2.getD k false = true) ∧
    (∀ cfg env fuel maxR lh, ∀ st ∈ (detectionPeriodical cfg env fuel maxR lh).1,
      (st.1.map StackElem.depEntry).Pairwise (· ≠ ·)) :=
  ⟨fun cfg env fuel => detect_invariant cfg env fuel,
   fun cfg env fuel maxR lh => detectionPeriodical_invariant cfg env fuel maxR lh⟩

theorem dfs_one_dependency_per_routine_witness :
    ((([(⟨c8d0, 0⟩ : StackElem), ⟨c8d1, 2⟩]).map StackElem.depEntry).Pairwise (· ≠ ·)) :=
  dfs_one_dependency_per_routine.2 cfgC8 envFalse 4 4 lhC8
    ([⟨c8d0, 0⟩, ⟨c8d1, 2⟩], [true, false, true, false]) (by decide)

/-! ### C3: dedup and idempotence of updateLock -/

theorem mapLookup_insert (mp : List (Nat × List Dependency)) (k : Nat)
    (v : List Dependency) (k' : Nat) :
    mapLookup (mapInsert mp k v) k' = if k' = k then some v else mapLookup mp k' := by
  unfold mapInsert mapLookup
  by_cases h : k' = k
  · subst h
    rw [List.find?_cons_of_pos _ (by simp)]
    simp
  · rw [List.find?_cons_of_neg _ (by simp [Ne.symm h])]
    simp [h]

theorem holdingSetScan_iff (dhs rhs : List (Option MutexInt)) (hc : Nat) :
    ∀ i, holdingSetScan dhs rhs hc i = true ↔
      ∀ j, i ≤ j → j < hc → dhs.getD j none = rhs.getD j none := by
  suffices H : ∀ k i, hc - i ≤ k →
      (holdingSetScan dhs rhs hc i = true ↔
        ∀ j, i ≤ j → j < hc → dhs.getD j none = rhs.getD j none) by
    intro i
    exact H (hc - i) i le_rfl
  intro k
  induction k with
  | zero =>
    intro i hk
    unfold holdingSetScan
    rw [if_neg (by omega)]
    simp only [true_iff]
    intro j hj hj'
    omega
  | succ k ih =>
    intro i hk
    by_cases hlt : i < hc
    · unfold holdingSetScan
      rw [if_pos hlt]
      cases heq : dhs.getD i none == rhs.getD i none with
      | false =>
        rw [if_neg (by simp)]
        constructor
        · intro h
          exact absurd h (by simp)
        · intro hall
          exact absurd (hall i le_rfl hlt) (beq_eq_false_iff_ne.mp heq)
      | true =>
        rw [if_pos rfl]
        rw [ih (i + 1) (by omega)]
        constructor
        · intro hall j hij hjhc
          rcases Nat.eq_or_lt_of_le hij with heq2 | hlt2
          · subst heq2
            exact eq_of_beq heq
          · exact hall j hlt2 hjhc
        · intro hall j hij hj
          exact hall j (by omega) hj
    · unfold holdingSetScan
      rw [if_neg hlt]
      simp only [true_iff]
      intro j hj hj'
      omega

theorem dependencyAlreadyExists_iff (r : Routine) (m : MutexInt) (l : List Dependency) :
    dependencyAlreadyExists r m l = true ↔
      ∃ d ∈ l, d.mu = m ∧ d.holdingCount = r.holdingCount ∧
        ∀ i, i < r.holdingCount →
          d.holdingSet.getD i none = r.holdingSet.getD i none := by
  unfold dependencyAlreadyExists
  rw [List.any_eq_true]
  constructor
  · rintro ⟨d, hd, hcond⟩
    simp only [Bool.and_eq_true, beq_iff_eq] at hcond
    obtain ⟨⟨h1, h2⟩, h3⟩ := hcond
    refine ⟨d, hd, h1, h2, fun i hi => ?_⟩
    exact (holdingSetScan_iff _ _ _ 0).mp h3 i (Nat.zero_le _) hi
  · rintro ⟨d, hd, h1, h2, h3⟩
    refine ⟨d, hd, ?_⟩
    simp only [Bool.and_eq_true, beq_iff_eq]
    exact ⟨⟨h1, h2⟩, (holdingSetScan_iff _ _ _ 0).mpr (fun j _ hj => h3 j hj)⟩

theorem bucketFound_iff (r : Routine) (m : MutexInt) :
    bucketFound r m = true ↔
      ∃ l, mapLookup r.dependencyMap (depKey r m) = some l ∧
        ∃ d ∈ l, d.mu = m ∧ d.holdingCount = r.holdingCount ∧
          ∀ i, i < r.holdingCount →
            d.holdingSet.getD i none = r.holdingSet.getD i none := by
  unfold bucketFound
  cases hlk : mapLookup r.dependencyMap (depKey r m) with
  | none => simp
  | some l =>
    rw [dependencyAlreadyExists_iff]
    constructor
    · intro h
      exact ⟨l, rfl, h⟩
    · rintro ⟨l', hl', h⟩
      have : l' = l := by injection hl' with h2; exact h2.symm
      subst this
      exact h

theorem newDependency_holdingSet_length (o : Opts) (lock : MutexInt)
    (cl : List (Option MutexInt)) (n : Nat) :
    (newDependency o lock cl n).holdingSet.length = o.maxNumberOfDependentLocks + n := by
  simp [newDependency]

theorem goCopy_getD (dst src : List (Option MutexInt)) (i : Nat) (h1 : i < dst.length) :
    (goCopy dst src).getD i none =
      if i < src.length then src.getD i none else dst.getD i none := by
  unfold goCopy
  simp only [List.getD_eq_getElem?_getD, List.getElem?_append, List.length_take]
  by_cases h2 : i < src.length
  · rw [if_pos h2]
    rw [if_pos (lt_min h1 h2)]
    rw [List.getElem?_take, if_pos h1]
  · rw [if_neg h2]
    have hsrc : src.length ≤ i := by omega
    have hmin : dst.length ⊓ src.length = src.length :=
      min_eq_right (le_trans hsrc (le_of_lt h1))
    rw [if_neg (by rw [hmin]; omega)]
    rw [hmin, List.getElem?_drop]
    congr 2
    omega

theorem theNewDep_getD (o : Opts) (r : Routine) (m : MutexInt)
    (hlt : r.holdingCount < o.maxNumberOfDependentLocks) :
    ∀ i, i < r.holdingCount →
      (theNewDep o r m).holdingSet.getD i none = r.holdingSet.getD i none := by
  intro i hi
  unfold theNewDep Dependency.update
  have hdst : i < (newDependency o m r.holdingSet r.holdingCount).holdingSet.length := by
    rw [newDependency_holdingSet_length]
    omega
  rw [goCopy_getD _ _ _ hdst]
  by_cases h2 : i < r.holdingSet.length
  · rw [if_pos h2]
  · rw [if_neg h2]
    -- the stale read beyond the live source hits the nil prefix of the
    -- constructor's slice and agrees with the out-of-range default
    have hsrc : r.holdingSet.getD i none = none := by
      simp only [List.getD_eq_getElem?_getD]
      rw [List.getElem?_eq_none (by omega)]
      rfl
    rw [hsrc]
    unfold newDependency
    simp only [List.getD_eq_getElem?_getD, List.getElem?_append, List.length_replicate]
    rw [if_pos (by omega), List.getElem?_replicate, if_pos (by omega)]
    rfl

theorem theNewDep_matches (o : Opts) (r : Routine) (m : MutexInt)
    (hlt : r.holdingCount < o.maxNumberOfDependentLocks) :
    (theNewDep o r m).mu = m ∧ (theNewDep o r m).holdingCount = r.holdingCount ∧
      ∀ i, i < r.holdingCount →
        (theNewDep o r m).holdingSet.getD i none = r.holdingSet.getD i none :=
  ⟨rfl, rfl, theNewDep_getD o r m hlt⟩

theorem updateLock_single_eq (o : Opts) (env : Env) (r : Routine) (m : MutexInt)
    (rl : Bool) (h0 : ¬ 0 < r.holdingCount)
    (hlt : r.holdingCount < o.maxNumberOfDependentLocks) :
    updateLock o env r m rl = some (setRLock env m r.index rl,
      { r with holdingSet := r.holdingSet.set r.holdingCount (some m)
               holdingCount := r.holdingCount + 1 }) := by
  unfold updateLock
  rw [if_neg h0]
  dsimp only
  rw [if_neg (not_le.mpr hlt)]

theorem updateLock_found_eq (o : Opts) (env : Env) (r : Routine) (m : MutexInt)
    (rl : Bool) (h0 : 0 < r.holdingCount) (hf : bucketFound r m = true)
    (hlt : r.holdingCount < o.maxNumberOfDependentLocks) :
    updateLock o env r m rl = some (setRLock env m r.index rl,
      { r with holdingSet := r.holdingSet.set r.holdingCount (some m)
               holdingCount := r.holdingCount + 1 }) := by
  unfold updateLock
  rw [if_pos h0, if_pos hf]
  dsimp only
  rw [if_neg (not_le.mpr hlt)]

theorem updateLock_cases {o : Opts} {env : Env} {r : Routine} {m : MutexInt}
    {rl : Bool} {env' : Env} {r' : Routine}
    (h : updateLock o env r m rl = some (env', r')) :
    env' = setRLock env m r.index rl ∧
    r.holdingCount < o.maxNumberOfDependentLocks ∧
    r'.holdingCount = r.holdingCount + 1 ∧
    r'.holdingSet = r.holdingSet.set r.holdingCount (some m) ∧
    r'.index = r.index ∧
    ((r'.dependencyMap = r.dependencyMap ∧ r'.dependencies = r.dependencies ∧
      r'.depCount = r.depCount ∧ r'.curDep = r.curDep ∧
      (0 < r.holdingCount → bucketFound r m = true)) ∨
     (0 < r.holdingCount ∧ bucketFound r m = false ∧ r.depCount < o.maxDependencies ∧
      r'.dependencyMap = mapInsert r.dependencyMap (depKey r m)
        (match mapLookup r.dependencyMap (depKey r m) with
          | some l => l ++ [theNewDep o r m]
          | none => [theNewDep o r m]) ∧
      r'.dependencies = r.dependencies ++ [theNewDep o r m] ∧
      r'.depCount = r.depCount + 1 ∧ r'.curDep = some (theNewDep o r m))) := by
  unfold updateLock at h
  by_cases h0 : 0 < r.holdingCount
  · rw [if_pos h0] at h
    by_cases hf : bucketFound r m = true
    · rw [if_pos hf] at h
      dsimp only at h
      split at h
      · exact absurd h (by simp)
      · rename_i hle
        simp only [Option.some.injEq, Prod.mk.injEq] at h
        obtain ⟨he, hr⟩ := h
        subst he hr
        exact ⟨rfl, by omega, rfl, rfl, rfl,
          Or.inl ⟨rfl, rfl, rfl, rfl, fun _ => hf⟩⟩
    · rw [if_neg hf] at h
      split at h
      · exact absurd h (by simp)
      · rename_i hcap
        dsimp only at h
        split at h
        · exact absurd h (by simp)
        · rename_i hle
          simp only [Option.some.injEq, Prod.mk.injEq] at h
          obtain ⟨he, hr⟩ := h
          subst he hr
          refine ⟨rfl, by omega, rfl, rfl, rfl,
            Or.inr ⟨h0, by simpa using hf, by omega, rfl, rfl, rfl, rfl⟩⟩
  · rw [if_neg h0] at h
    dsimp only at h
    split at h
    · exact absurd h (by simp)
    · rename_i hle
      simp only [Option.some.injEq, Prod.mk.injEq] at h
      obtain ⟨he, hr⟩ := h
      subst he hr
      exact ⟨rfl, by omega, rfl, rfl, rfl,
        Or.inl ⟨rfl, rfl, rfl, rfl, fun hc => absurd hc h0⟩⟩

/-- Membership of a dependency in the bucket the index stores under `key`. -/
def bucketMem (r : Routine) (key : Nat) (d : Dependency) : Prop :=
  ∃ l, mapLookup r.dependencyMap key = some l ∧ d ∈ l

theorem depKey_congr {r r' : Routine} (m : MutexInt)
    (hc : r'.holdingCount = r.holdingCount) (hs : r'.holdingSet = r.holdingSet) :
    depKey r' m = depKey r m := by
  unfold depKey
  rw [hc, hs]

theorem runOp_bucketMem {o : Opts} {env : Env} {r : Routine} {op : LockOp}
    {env1 : Env} {r1 : Routine} (h : runOp o env r op = some (env1, r1)) :
    ∀ key d, bucketMem r key d → bucketMem r1 key d := by
  cases op with
  | lockOp m rl =>
    obtain ⟨-, -, -, -, -, htree⟩ := updateLock_cases h
    rcases htree with ⟨hmap, -, -, -, -⟩ | ⟨-, -, -, hmap, -, -, -⟩
    · rintro key d ⟨l, hl, hdl⟩
      exact ⟨l, by rw [hmap]; exact hl, hdl⟩
    · rintro key d ⟨l, hl, hdl⟩
      by_cases hk : key = depKey r m
      · subst hk
        refine ⟨l ++ [theNewDep o r m], ?_, List.mem_append_left _ hdl⟩
        rw [hmap, mapLookup_insert, if_pos rfl, hl]
      · exact ⟨l, by rw [hmap, mapLookup_insert, if_neg hk]; exact hl, hdl⟩
  | tryLockOp m rl =>
    obtain ⟨-, -, h3, -, -, -, -, -, -⟩ :=
      updateTryLock_eq_some (show updateTryLock o env r m rl = some (env1, r1) from h)
    rintro key d ⟨l, hl, hdl⟩
    exact ⟨l, by rw [h3]; exact hl, hdl⟩
  | unlockOp m =>
    have hr1 : r1 = updateUnlock r m := by
      simp only [runOp, Option.some.injEq, Prod.mk.injEq] at h
      exact h.2.symm
    obtain ⟨-, -, hmap, -, -⟩ := updateUnlock_tree_eq r m
    rintro key d ⟨l, hl, hdl⟩
    refine ⟨l, ?_, hdl⟩
    rw [hr1, hmap]
    exact hl

theorem runOps_bucketMem {o : Opts} :
    ∀ {ops : List LockOp} {env : Env} {r : Routine} {env1 : Env} {r1 : Routine},
      runOps o env r ops = some (env1, r1) →
      ∀ key d, bucketMem r key d → bucketMem r1 key d := by
  intro ops
  induction ops with
  | nil =>
    intro env r env1 r1 h key d hd
    simp only [runOps, Option.some.injEq, Prod.mk.injEq] at h
    obtain ⟨-, hr⟩ := h
    subst hr
    exact hd
  | cons op rest ih =>
    intro env r env1 r1 h key d hd
    simp only [runOps] at h
    cases hop : runOp o env r op with
    | none => rw [hop] at h; exact absurd h (by simp)
    | some er =>
      rw [hop] at h
      obtain ⟨em, rm⟩ := er
      exact ih h key d (runOp_bucketMem hop key d hd)

theorem lockOp_ensures_match {o : Opts} {env : Env} {r : Routine} {m : MutexInt}
    {rl : Bool} {env1 : Env} {r1 : Routine}
    (h : updateLock o env r m rl = some (env1, r1)) (h0 : 0 < r.holdingCount) :
    ∃ d, bucketMem r1 (depKey r m) d ∧ d.mu = m ∧ d.holdingCount = r.holdingCount ∧
      ∀ i, i < r.holdingCount → d.holdingSet.getD i none = r.holdingSet.getD i none := by
  obtain ⟨-, hlt, -, -, -, htree⟩ := updateLock_cases h
  rcases htree with ⟨hmap, -, -, -, himp⟩ | ⟨-, -, -, hmap, -, -, -⟩
  · obtain ⟨l, hl, d, hdl, hm⟩ := (bucketFound_iff r m).mp (himp h0)
    exact ⟨d, ⟨l, by rw [hmap]; exact hl, hdl⟩, hm⟩
  · obtain ⟨hmu, hhc, hpt⟩ := theNewDep_matches o r m hlt
    refine ⟨theNewDep o r m, ?_, hmu, hhc, hpt⟩
    refine ⟨_, by rw [hmap, mapLookup_insert, if_pos rfl], ?_⟩
    cases hlk : mapLookup r.dependencyMap (depKey r m) with
    | some l => exact List.mem_append_right _ (List.mem_singleton_self _)
    | none => exact List.mem_singleton_self _

theorem bucketFound_of_match {r' : Routine} {m : MutexInt} {d : Dependency}
    (hmem : bucketMem r' (depKey r' m) d) (hmu : d.mu = m)
    (hhc : d.holdingCount = r'.holdingCount)
    (hpt : ∀ i, i < r'.holdingCount →
      d.holdingSet.getD i none = r'.holdingSet.getD i none) :
    bucketFound r' m = true := by
  obtain ⟨l, hl, hdl⟩ := hmem
  exact (bucketFound_iff r' m).mpr ⟨l, hl, d, hdl, hmu, hhc, hpt⟩

theorem updateUnlock_hold_congr {r r' : Routine} (m : MutexInt)
    (hc : r'.holdingCount = r.holdingCount) (hs : r'.holdingSet = r.holdingSet) :
    (updateUnlock r' m).holdingCount = (updateUnlock r m).holdingCount ∧
    (updateUnlock r' m).holdingSet = (updateUnlock r m).holdingSet := by
  unfold updateUnlock
  rw [hc, hs]
  split
  · exact ⟨hc, hs⟩
  · exact ⟨rfl, rfl⟩

theorem routine_ext {a b : Routine} (h1 : a.index = b.index)
    (h2 : a.holdingCount = b.holdingCount) (h3 : a.holdingSet = b.holdingSet)
    (h4 : a.dependencyMap = b.dependencyMap) (h5 : a.dependencies = b.dependencies)
    (h6 : a.depCount = b.depCount) (h7 : a.curDep = b.curDep) : a = b := by
  cases a
  cases b
  simp_all

theorem runOps_append (o : Opts) :
    ∀ (p q : List LockOp) (env : Env) (r : Routine),
      runOps o env r (p ++ q) = match runOps o env r p with
        | none => none
        | some er => runOps o er.1 er.2 q := by
  intro p
  induction p with
  | nil => intro q env r; rfl
  | cons op rest ih =>
    intro q env r
    simp only [List.cons_append, runOps]
    cases hop : runOp o env r op with
    | none => rfl
    | some er => exact ih q er.1 er.2

/-- Replaying a successful operation sequence from a state with the same
holding set and at least the final run's buckets takes no tree action at
all: every lock step finds its dependency already present. -/
theorem runOps_replay (o : Opts) :
    ∀ (ops : List LockOp) (env : Env) (r : Routine) (env1 : Env) (r1 : Routine),
      runOps o env r ops = some (env1, r1) →
      ∀ (env' : Env) (r' : Routine),
        r'.holdingCount = r.holdingCount →
        r'.holdingSet = r.holdingSet →
        (∀ key d, bucketMem r1 key d → bucketMem r' key d) →
        ∃ env2 r2, runOps o env' r' ops = some (env2, r2) ∧
          r2.dependencyMap = r'.dependencyMap ∧
          r2.dependencies = r'.dependencies ∧
          r2.depCount = r'.depCount ∧
          r2.curDep = r'.curDep ∧
          r2.index = r'.index ∧
          r2.holdingCount = r1.holdingCount ∧
          r2.holdingSet = r1.holdingSet := by
  intro ops
  induction ops with
  | nil =>
    intro env r env1 r1 h env' r' hhc hhs hsup
    simp only [runOps, Option.some.injEq, Prod.mk.injEq] at h
    obtain ⟨-, hr⟩ := h
    subst hr
    exact ⟨env', r', rfl, rfl, rfl, rfl, rfl, rfl, hhc, hhs⟩
  | cons op rest ih =>
    intro env r env1 r1 h env' r' hhc hhs hsup
    simp only [runOps] at h
    cases hop : runOp o env r op with
    | none => rw [hop] at h; exact absurd h (by simp)
    | some er =>
      rw [hop] at h
      obtain ⟨em, rm⟩ := er
      have hmono := runOps_bucketMem h
      cases op with
      | lockOp m rl =>
        obtain ⟨-, hlt, hrmc, hrms, -, -⟩ := updateLock_cases hop
        have hstep' : updateLock o env' r' m rl = some (setRLock env' m r'.index rl,
            { r' with holdingSet := r'.holdingSet.set r'.holdingCount (some m)
                      holdingCount := r'.holdingCount + 1 }) := by
          by_cases h0 : 0 < r.holdingCount
          · obtain ⟨d, hdmem, hdmu, hdhc, hdpt⟩ := lockOp_ensures_match hop h0
            have hd' : bucketMem r' (depKey r' m) d := by
              rw [depKey_congr m hhc hhs]
              exact hsup _ _ (hmono _ _ hdmem)
            have hf' : bucketFound r' m = true := by
              refine bucketFound_of_match hd' hdmu ?_ ?_
              · rw [hhc]
                exact hdhc
              · intro i hi
                rw [hhc] at hi
                rw [hhs]
                exact hdpt i hi
            exact updateLock_found_eq o env' r' m rl (by omega) hf' (by omega)
          · exact updateLock_single_eq o env' r' m rl (by omega) (by omega)
        have hstep2 : runOp o env' r' (LockOp.lockOp m rl) =
            some (setRLock env' m r'.index rl,
              { r' with holdingSet := r'.holdingSet.set r'.holdingCount (some m)
                        holdingCount := r'.holdingCount + 1 }) := hstep'
        obtain ⟨env2, r2, hrun2, t1, t2, t3, t4, t5, t6, t7⟩ :=
          ih em rm env1 r1 h (setRLock env' m r'.index rl)
            { r' with holdingSet := r'.holdingSet.set r'.holdingCount (some m)
                      holdingCount := r'.holdingCount + 1 }
            (by simp [hrmc, hhc]) (by simp [hrms, hhc, hhs])
            (fun key d hd => hsup key d hd)
        refine ⟨env2, r2, ?_, t1, t2, t3, t4, t5, t6, t7⟩
        simp only [runOps]
        rw [hstep2]
        exact hrun2
      | tryLockOp m rl =>
        obtain ⟨-, -, -, -, -, hrms, hrmc, -, hlt⟩ := updateTryLock_eq_some hop
        have hstep2 : runOp o env' r' (LockOp.tryLockOp m rl) =
            some (setRLock env' m r'.index rl,
              { r' with holdingSet := r'.holdingSet.set r'.holdingCount (some m)
                        holdingCount := r'.holdingCount + 1 }) :=
          updateTryLock_eq o env' r' m rl (by omega)
        obtain ⟨env2, r2, hrun2, t1, t2, t3, t4, t5, t6, t7⟩ :=
          ih em rm env1 r1 h (setRLock env' m r'.index rl)
            { r' with holdingSet := r'.holdingSet.set r'.holdingCount (some m)
                      holdingCount := r'.holdingCount + 1 }
            (by simp [hrmc, hhc]) (by simp [hrms, hhc, hhs])
            (fun key d hd => hsup key d hd)
        refine ⟨env2, r2, ?_, t1, t2, t3, t4, t5, t6, t7⟩
        simp only [runOps]
        rw [hstep2]
        exact hrun2
      | unlockOp m =>
        have hrm : em = env ∧ rm = updateUnlock r m := by
          simp only [runOp, Option.some.injEq, Prod.mk.injEq] at hop
          exact ⟨hop.1.symm, hop.2.symm⟩
        obtain ⟨hem, hrm⟩ := hrm
        obtain ⟨hu1, hu2⟩ := updateUnlock_hold_congr m hhc hhs
        obtain ⟨hw1, hw2, hw3, hw4, hw5⟩ := updateUnlock_tree_eq r' m
        obtain ⟨env2, r2, hrun2, t1, t2, t3, t4, t5, t6, t7⟩ :=
          ih em rm env1 r1 h env' (updateUnlock r' m)
            (by rw [hrm]; exact hu1) (by rw [hrm]; exact hu2)
            (fun key d hd => by
              obtain ⟨l, hl, hdl⟩ := hsup key d hd
              exact ⟨l, by rw [hw3]; exact hl, hdl⟩)
        refine ⟨env2, r2, ?_, t1.trans hw3, t2.trans hw1, t3.trans hw2,
          t4.trans hw4, t5.trans hw5, t6, t7⟩
        simp only [runOps, runOp]
        exact hrun2

/-- C3.  `updateLock` appends a new dependency only when no dependency in
the bucket of `key = position(m) XOR position(top of holding set)` has the
same acquired lock, the same holding count and a pointwise-equal holding
set; consequently executing the same (holding-set-restoring) operation
sequence any number of further times leaves the routine state -- in
particular `depCount` -- exactly as after the first execution. -/
theorem updateLock_dedup_idempotent :
    (∀ o env r m rl env' r',
      updateLock o env r m rl = some (env', r') →
      r.depCount < r'.depCount →
      0 < r.holdingCount ∧
      ∀ l, mapLookup r.dependencyMap (depKey r m) = some l →
        ∀ d ∈ l, ¬(d.mu = m ∧ d.holdingCount = r.holdingCount ∧
          ∀ i, i < r.holdingCount →
            d.holdingSet.getD i none = r.holdingSet.getD i none)) ∧
    (∀ o env r ops env1 r1,
      runOps o env r ops = some (env1, r1) →
      r1.holdingCount = r.holdingCount →
      r1.holdingSet = r.holdingSet →
      ∀ N, ∃ envN, runOps o env r (List.flatten (List.replicate (N + 1) ops)) =
        some (envN, r1)) := by
  constructor
  · intro o env r m rl env' r' h hinc
    obtain ⟨-, -, -, -, -, htree⟩ := updateLock_cases h
    rcases htree with ⟨-, -, hdc, -, -⟩ | ⟨h0, hf, -, -, -, -, -⟩
    · omega
    · refine ⟨h0, ?_⟩
      intro l hl d hdl hmatch
      have hfound : bucketFound r m = true :=
        (bucketFound_iff r m).mpr ⟨l, hl, d, hdl, hmatch.1, hmatch.2.1, hmatch.2.2⟩
      rw [hf] at hfound
      exact absurd hfound (by simp)
  · intro o env r ops env1 r1 h hhc hhs N
    have hfix : ∀ e : Env, ∃ e2, runOps o e r1 ops = some (e2, r1) := by
      intro e
      obtain ⟨e2, r2, hrun, t1, t2, t3, t4, t5, t6, t7⟩ :=
        runOps_replay o ops env r env1 r1 h e r1 hhc hhs (fun key d hd => hd)
      have hr2 : r2 = r1 := routine_ext t5 t6 t7 t1 t2 t3 t4
      rw [hr2] at hrun
      exact ⟨e2, hrun⟩
    have hiter : ∀ M (e : Env),
        ∃ e2, runOps o e r1 (List.flatten (List.replicate M ops)) = some (e2, r1) := by
      intro M
      induction M with
      | zero => intro e; exact ⟨e, rfl⟩
      | succ M ihM =>
        intro e
        have hjoin : List.flatten (List.replicate (M + 1) ops) =
            ops ++ List.flatten (List.replicate M ops) := by
          simp [List.replicate_succ]
        rw [hjoin, runOps_append]
        obtain ⟨e2, hfix'⟩ := hfix e
        rw [hfix']
        exact ihM e2
    have hjoin : List.flatten (List.replicate (N + 1) ops) =
        ops ++ List.flatten (List.replicate N ops) := by
      simp [List.replicate_succ]
    rw [hjoin, runOps_append, h]
    exact hiter N env1

/-- The nested pattern of the C3 witness: lock `mA`, lock `mB` inside it,
then release both. -/
def c3ops : List LockOp :=
  [LockOp.lockOp mA false, LockOp.lockOp mB false,
   LockOp.unlockOp mB, LockOp.unlockOp mA]

/-- The reader-flag state after one execution of the witness pattern. -/
def c3env1 : Env :=
  match runOps smallOpts envFalse r0init c3ops with
  | some er => er.1
  | none => envFalse

/-- The routine state after one execution of the witness pattern. -/
def c3r1 : Routine :=
  match runOps smallOpts envFalse r0init c3ops with
  | some er => er.2
  | none => default

theorem updateLock_dedup_idempotent_witness :
    ∃ envN, runOps smallOpts envFalse r0init
        (List.flatten (List.replicate 2 c3ops)) = some (envN, c3r1) :=
  updateLock_dedup_idempotent.2 smallOpts envFalse r0init c3ops c3env1 c3r1 rfl
    (by decide) (by decide) 1

end DeadlockGo
